import Mathlib

/-!
# Verification of the Playwright config loader (`packages/playwright/src/common/configLoader.ts`)

Shallow embedding of the configuration resolution-and-merge engine and the
schema-validation pipeline.  JavaScript objects are modelled as association
lists over `JKey` (string keys plus the private `kDefineConfigWasUsed`
symbol), JavaScript values as the inductive `JVal`.  The functions
`defineConfig`, `validateConfig`, `validateProject`, `validateTestOptions`
and `resolveConfigFile` are translated from the source; the zod schema
`testOptionsSchema` is translated from
`packages/playwright/src/common/schemas/testOptions.ts`.
-/

namespace PW

/-- Object keys: ordinary string keys, plus the `kDefineConfigWasUsed`
symbol (`Symbol('defineConfigWasUsed')`, configLoader.ts line 35), which is
distinct from every string key. -/
inductive JKey where
  | str (s : String)
  | defineConfigSym
deriving DecidableEq, Repr

/-- JavaScript values, JSON-shaped.  Numbers are modelled as integers (no
claim involves fractional values).  `undefined` is the JavaScript `undefined`;
a key mapped to `undefined` is distinct from an absent key (observable via the
`in` operator).  `regex` stands for a RegExp object (only its identity as
"a RegExp" matters, via `isRegExp`). -/
inductive JVal where
  | null
  | undefined
  | bool (b : Bool)
  | num (n : Int)
  | str (s : String)
  | arr (elems : List JVal)
  | obj (fields : List (JKey × JVal))
  | regex (source : String)

/-- JS `SameValueZero` equality, used for `Map` keys.  Primitives compare
by value; objects, arrays and RegExps compare by reference — every object
literal in the model is a fresh reference, so they compare unequal. -/
def sameValueZero : JVal → JVal → Bool
  | .null, .null => true
  | .undefined, .undefined => true
  | .bool a, .bool b => a == b
  | .num a, .num b => a == b
  | .str a, .str b => a == b
  | _, _ => false

/-- A JavaScript object: ordered own-property list.  Well-formed objects
have pairwise distinct keys; all operations below preserve that. -/
abbrev Obj := List (JKey × JVal)

/-- First-occurrence key lookup (JS property access on own properties). -/
def lookupKey : Obj → JKey → Option JVal
  | [], _ => none
  | (k', v) :: rest, k => if k' = k then some v else lookupKey rest k

/-- JS property assignment `o[k] = v` / object-literal override: replaces
the first occurrence in place (keeping its position) or appends. -/
def setKey : Obj → JKey → JVal → Obj
  | [], k, v => [(k, v)]
  | (k', v') :: rest, k, v =>
    if k' = k then (k, v) :: rest else (k', v') :: setKey rest k v

/-- JS truthiness.  `undefined`, `null`, `false`, `0`, `""` are falsy;
objects, arrays and RegExps are truthy. -/
def truthy : JVal → Bool
  | .null => false
  | .undefined => false
  | .bool b => b
  | .num n => n != 0
  | .str s => s ≠ ""
  | .arr _ => true
  | .obj _ => true
  | .regex _ => true

/-- Property access `o.s` for a string key: `undefined` when absent. -/
def getProp (o : Obj) (s : String) : JVal :=
  (lookupKey o (.str s)).getD .undefined

/-- Property access on an arbitrary value.  Non-object primitives yield
`undefined` for the properties the loader reads (accessing a property of
`null`/`undefined` would throw in JS; such inputs are outside every claim). -/
def getPropV : JVal → String → JVal
  | .obj o, s => getProp o s
  | _, _ => .undefined

/-- Spread of one object into an accumulator: `{...base, ...more}` folds
`more`'s entries with in-place overwrite. -/
def spreadFields (base : Obj) (more : Obj) : Obj :=
  more.foldl (fun acc kv => setKey acc kv.1 kv.2) base

/-- Spread of an arbitrary value into an object literal (`{...v}`): objects
contribute their own enumerable entries, arrays contribute index-keyed
entries, everything else (including `undefined`, `null`, numbers, booleans,
strings of length 0, RegExps) contributes nothing.  (Spreading a non-empty
string would contribute index-keyed characters in JS; no claim exercises
that, and config sub-objects are objects.) -/
def spreadVal (base : Obj) : JVal → Obj
  | .obj fields => spreadFields base fields
  | .arr xs =>
    (xs.enum.map (fun p => (JKey.str (toString p.1), p.2))).foldl
      (fun acc kv => setKey acc kv.1 kv.2) base
  | _ => base

/-- `Array.isArray(v) ? v : (v ? [v] : [])` — webServer normalization,
configLoader.ts lines 56–59. -/
def normWebServer : JVal → List JVal
  | .arr xs => xs
  | v => if truthy v then [v] else []

/-- `for (const x of v || [])` over a value expected to be an array or
falsy.  (A truthy non-array would throw in JS; outside every claim.) -/
def jsIter : JVal → List JVal
  | .arr xs => xs
  | _ => []

/-! JS `Map` with insertion-order iteration: `set` on an existing key keeps
its position, `delete` removes the entry, `values()` iterates in order. -/

/-- `Map.prototype.set` (SameValueZero key equality). -/
def mapSet : List (JVal × JVal) → JVal → JVal → List (JVal × JVal)
  | [], k, v => [(k, v)]
  | (k', v') :: rest, k, v =>
    if sameValueZero k' k then (k, v) :: rest else (k', v') :: mapSet rest k v

/-- `Map.prototype.get`. -/
def mapGet : List (JVal × JVal) → JVal → Option JVal
  | [], _ => none
  | (k', v) :: rest, k => if sameValueZero k' k then some v else mapGet rest k

/-- `Map.prototype.delete`. -/
def mapDelete : List (JVal × JVal) → JVal → List (JVal × JVal)
  | [], _ => []
  | (k', v) :: rest, k =>
    if sameValueZero k' k then rest else (k', v) :: mapDelete rest k

/-- `Map.prototype.values()` as a list, in insertion order. -/
def mapValues (m : List (JVal × JVal)) : List JVal := m.map (·.2)

/-- `projectOverrides` construction, configLoader.ts lines 65–67: a map
from `project.name` to the override project. -/
def buildOverrides (os : List JVal) : List (JVal × JVal) :=
  os.foldl (fun m p => mapSet m (getPropV p "name") p) []

/-- The merged project for a name match, configLoader.ts lines 73–80:
`{...project, ...projectOverride, use: {...project.use, ...projectOverride.use}}`. -/
def mergeProjectObj (p ov : JVal) : JVal :=
  .obj (setKey (spreadVal (spreadVal [] p) ov) (.str "use")
    (.obj (spreadVal (spreadVal [] (getPropV p "use")) (getPropV ov "use"))))

/-- The loop of configLoader.ts lines 69–85: walk the base projects; on a
(truthy) override match, push the merged project and consume the override;
otherwise push the base project unchanged.  Returns the pushed list and
the remaining override map. -/
def mergeProjectsLoop : List JVal → List (JVal × JVal) → List JVal × List (JVal × JVal)
  | [], m => ([], m)
  | p :: rest, m =>
    let n := getPropV p "name"
    match mapGet m n with
    | some ov =>
      if truthy ov then
        let r := mergeProjectsLoop rest (mapDelete m n)
        (mergeProjectObj p ov :: r.1, r.2)
      else
        let r := mergeProjectsLoop rest m
        (p :: r.1, r.2)
    | none =>
      let r := mergeProjectsLoop rest m
      (p :: r.1, r.2)

/-- The object literal of configLoader.ts lines 41–60:
`{...result, ...config, expect: {...}, use: {...}, build: {...},
webServer: [...]}`. -/
def mergeBase (result config : Obj) : Obj :=
  let m0 := spreadFields result config
  let m1 := setKey m0 (.str "expect")
    (.obj (spreadVal (spreadVal [] (getProp result "expect")) (getProp config "expect")))
  let m2 := setKey m1 (.str "use")
    (.obj (spreadVal (spreadVal [] (getProp result "use")) (getProp config "use")))
  let m3 := setKey m2 (.str "build")
    (.obj (spreadVal (spreadVal [] (getProp result "build")) (getProp config "build")))
  setKey m3 (.str "webServer")
    (.arr (normWebServer (getProp result "webServer") ++ normWebServer (getProp config "webServer")))

/-- One fold step of `defineConfig`, configLoader.ts lines 39–87: the
object literal, then the projects override-merge (skipped when neither
side has truthy `projects`). -/
def mergeStep (result config : Obj) : Obj :=
  let prevProjects := getProp result "projects"
  let m4 := mergeBase result config
  if ¬ truthy (getProp m4 "projects") ∧ ¬ truthy (getProp config "projects") then
    m4
  else
    let overrides := buildOverrides (jsIter (getProp config "projects"))
    let r := mergeProjectsLoop (jsIter prevProjects) overrides
    setKey m4 (.str "projects") (.arr (r.1 ++ mapValues r.2))

/-- `defineConfig(...configs)`, configLoader.ts lines 36–91: left fold of
`mergeStep` over the fragments, then `result[kDefineConfigWasUsed] = true`.
(The empty call would throw in JS before reaching the fold; the `[]` case
is never used by any claim.) -/
def defineConfig : List Obj → Obj
  | [] => []
  | c :: rest => setKey (rest.foldl mergeStep c) .defineConfigSym (.bool true)

/-- `fullConfig.defineConfigWasUsed = !!(userConfig as any)[kDefineConfigWasUsed]`,
configLoader.ts line 123. -/
def defineConfigWasUsedFlag (userConfig : Obj) : Bool :=
  truthy ((lookupKey userConfig .defineConfigSym).getD .undefined)

/-! ## The zod schema engine

The schema library (zod, an external collaborator) is modelled by `ZSchema`
and `firstIssue`: declarative per-field type/enum/bound descriptions
evaluated to the first violation, in declaration order (zod reports issues
in traversal order; the loader reads only `issues[0]`).  Issue codes are
the ones the loader branches on: `invalid_type`, `invalid_value`,
`too_small`, `too_big`, plus `invalid_union` for failed unions (handled by
the loader's fall-through branch). -/

inductive ZCode where
  | invalid_type
  | invalid_value
  | too_small
  | too_big
  | invalid_union
deriving DecidableEq, Repr

/-- A zod issue: code, path into the validated value (array indices
stringified, as they appear after `path.join('.')`), and message. -/
structure ZIssue where
  code : ZCode
  path : List String
  message : String
deriving DecidableEq, Repr

/-- Schema descriptions.  A numeric bound is `(bound, inclusive)`:
`.positive()` is lower `(0, false)`, `.nonnegative()` lower `(0, true)`,
`.min(a)`/`.max(b)` inclusive bounds.  Object fields are
`(name, schema, optional)` in declaration order; unknown keys are
tolerated (`.loose()` / default zod strip — neither errors).
`bufferS` stands for `zod.instanceof(Buffer)`; no modelled value is a
Buffer. -/
inductive ZSchema where
  | boolS
  | strS
  | numS (intOnly : Bool) (lo hi : Option (Int × Bool))
  | litS (v : JVal)
  | enumS (vals : List String)
  | nullS
  | anyS
  | bufferS
  | recordS (value : ZSchema)
  | arrS (elem : ZSchema)
  | unionS (branches : List ZSchema)
  | objS (fields : List (String × ZSchema × Bool))

/-- The `received ...` type name used in zod `invalid_type` messages. -/
def typeName : JVal → String
  | .null => "null"
  | .undefined => "undefined"
  | .bool _ => "boolean"
  | .num _ => "number"
  | .str _ => "string"
  | .arr _ => "array"
  | .obj _ => "object"
  | .regex _ => "object"

/-- The `expected ...` type name for a schema, used in `invalid_type`
messages for missing required fields. -/
def expectedName : ZSchema → String
  | .boolS => "boolean"
  | .strS => "string"
  | .numS _ _ _ => "number"
  | .litS v => typeName v
  | .enumS _ => "option"
  | .nullS => "null"
  | .anyS => "any"
  | .bufferS => "Buffer"
  | .recordS _ => "record"
  | .arrS _ => "array"
  | .unionS _ => "input"
  | .objS _ => "object"

/-- An `invalid_type` issue. -/
def typeIssue (path : List String) (expected : String) (v : JVal) : ZIssue :=
  { code := .invalid_type, path,
    message := "Invalid input: expected " ++ expected ++ ", received " ++ typeName v }

def isUndefined : JVal → Bool
  | .undefined => true
  | _ => false

/-- The first `some` in a list of optional issues (zod reports the first
issue in traversal order). -/
def firstSomeIssue : List (Option ZIssue) → Option ZIssue
  | [] => none
  | some i :: _ => some i
  | none :: rest => firstSomeIssue rest

mutual

/-- First issue reported by zod when parsing `v` against a schema, with
issues in traversal order (fields in declaration order, array elements in
index order); `none` means the parse succeeds. -/
def firstIssue : ZSchema → List String → JVal → Option ZIssue
  | .boolS, path, v =>
    match v with
    | .bool _ => none
    | v => some (typeIssue path "boolean" v)
  | .strS, path, v =>
    match v with
    | .str _ => none
    | v => some (typeIssue path "string" v)
  | .numS _ lo hi, path, v =>
    match v with
    | .num n =>
      match lo with
      | some (b, incl) =>
        if (incl ∧ n < b) ∨ (¬ incl ∧ n ≤ b) then
          some { code := .too_small, path,
                 message := "Too small: expected number to be " ++
                   (if incl then ">=" else ">") ++ toString b }
        else
          match hi with
          | some (c, incl') =>
            if (incl' ∧ c < n) ∨ (¬ incl' ∧ c ≤ n) then
              some { code := .too_big, path,
                     message := "Too big: expected number to be " ++
                       (if incl' then "<=" else "<") ++ toString c }
            else none
          | none => none
      | none =>
        match hi with
        | some (c, incl') =>
          if (incl' ∧ c < n) ∨ (¬ incl' ∧ c ≤ n) then
            some { code := .too_big, path,
                   message := "Too big: expected number to be " ++
                     (if incl' then "<=" else "<") ++ toString c }
          else none
        | none => none
    | v => some (typeIssue path "number" v)
  | .litS lv, path, v =>
    if sameValueZero v lv then none
    else some { code := .invalid_value, path, message := "Invalid value" }
  | .enumS vals, path, v =>
    match v with
    | .str s =>
      if s ∈ vals then none
      else some { code := .invalid_value, path,
                  message := "Invalid option: expected one of " ++
                    String.intercalate "|" (vals.map (fun t => "\"" ++ t ++ "\"")) }
    | _ => some { code := .invalid_value, path,
                  message := "Invalid option: expected one of " ++
                    String.intercalate "|" (vals.map (fun t => "\"" ++ t ++ "\"")) }
  | .nullS, path, v =>
    match v with
    | .null => none
    | v => some (typeIssue path "null" v)
  | .anyS, _, _ => none
  | .bufferS, path, v => some (typeIssue path "Buffer" v)
  | .recordS sch, path, v =>
    match v with
    | .obj o =>
      firstSomeIssue (o.map (fun kv =>
        match kv.1 with
        | .str k => firstIssue sch (path ++ [k]) kv.2
        | .defineConfigSym => none))
    | v => some (typeIssue path "record" v)
  | .arrS e, path, v =>
    match v with
    | .arr xs =>
      firstSomeIssue (xs.enum.map (fun q => firstIssue e (path ++ [toString q.1]) q.2))
    | v => some (typeIssue path "array" v)
  | .unionS bs, path, v =>
    if anyBranchOk bs v then none
    else some { code := .invalid_union, path, message := "Invalid input" }
  | .objS fields, path, v =>
    match v with
    | .obj o => firstIssueFields fields path o
    | v => some (typeIssue path "object" v)

/-- Object fields in declaration order; a field whose value is absent or
`undefined` is skipped when optional and an `invalid_type` (received
undefined) when required. -/
def firstIssueFields : List (String × ZSchema × Bool) → List String → Obj → Option ZIssue
  | [], _, _ => none
  | (name, sch, opt) :: rest, path, o =>
    let fv := getProp o name
    if isUndefined fv then
      if opt then firstIssueFields rest path o
      else some (typeIssue (path ++ [name]) (expectedName sch) .undefined)
    else
      match firstIssue sch (path ++ [name]) fv with
      | some i => some i
      | none => firstIssueFields rest path o

/-- A union succeeds when some branch succeeds. -/
def anyBranchOk : List ZSchema → JVal → Bool
  | [], _ => false
  | b :: bs, v =>
    match firstIssue b [] v with
    | none => true
    | some _ => anyBranchOk bs v

end

/-! ## Translation of `packages/playwright/src/common/schemas/testOptions.ts` -/

/-- `viewportSchema`, testOptions.ts lines 23–26. -/
def viewportSchema : ZSchema :=
  .objS [
    ("width", .numS true (some (0, false)) none, false),
    ("height", .numS true (some (0, false)) none, false)]

/-- `geolocationSchema`, testOptions.ts lines 28–32. -/
def geolocationSchema : ZSchema :=
  .objS [
    ("longitude", .numS false (some (-180, true)) (some (180, true)), false),
    ("latitude", .numS false (some (-90, true)) (some (90, true)), false),
    ("accuracy", .numS false (some (0, true)) none, true)]

/-- `proxySchema`, testOptions.ts lines 34–39. -/
def proxySchema : ZSchema :=
  .objS [
    ("server", .strS, false),
    ("bypass", .strS, true),
    ("username", .strS, true),
    ("password", .strS, true)]

/-- `storageStateSchema`, testOptions.ts lines 41–62. -/
def storageStateSchema : ZSchema :=
  .unionS [
    .strS,
    .objS [
      ("cookies", .arrS (.objS [
        ("name", .strS, false),
        ("value", .strS, false),
        ("domain", .strS, false),
        ("path", .strS, false),
        ("expires", .numS false none none, true),
        ("httpOnly", .boolS, true),
        ("secure", .boolS, true),
        ("sameSite", .enumS ["Strict", "Lax", "None"], true)]), true),
      ("origins", .arrS (.objS [
        ("origin", .strS, false),
        ("localStorage", .arrS (.objS [
          ("name", .strS, false),
          ("value", .strS, false)]), true)]), true)]]

/-- `httpCredentialsSchema`, testOptions.ts lines 64–69. -/
def httpCredentialsSchema : ZSchema :=
  .objS [
    ("username", .strS, false),
    ("password", .strS, false),
    ("origin", .strS, true),
    ("send", .enumS ["always", "unauthorized"], true)]

/-- `clientCertificateSchema`, testOptions.ts lines 71–80. -/
def clientCertificateSchema : ZSchema :=
  .objS [
    ("origin", .strS, false),
    ("certPath", .strS, true),
    ("keyPath", .strS, true),
    ("pfxPath", .strS, true),
    ("cert", .strS, true),
    ("key", .strS, true),
    ("pfx", .bufferS, true),
    ("passphrase", .strS, true)]

/-- `screenshotOptionsSchema`, testOptions.ts lines 82–86. -/
def screenshotOptionsSchema : ZSchema :=
  .objS [
    ("mode", .enumS ["on", "off", "only-on-failure"], false),
    ("fullPage", .boolS, true),
    ("omitBackground", .boolS, true)]

/-- `traceOptionsSchema`, testOptions.ts lines 88–94. -/
def traceOptionsSchema : ZSchema :=
  .objS [
    ("mode", .enumS ["on", "off", "retain-on-failure", "on-first-retry"], false),
    ("snapshots", .boolS, true),
    ("screenshots", .boolS, true),
    ("sources", .boolS, true),
    ("attachments", .boolS, true)]

/-- `videoOptionsSchema`, testOptions.ts lines 96–102. -/
def videoOptionsSchema : ZSchema :=
  .objS [
    ("mode", .enumS ["on", "off", "retain-on-failure", "on-first-retry"], false),
    ("size", .objS [
      ("width", .numS true (some (0, false)) none, false),
      ("height", .numS true (some (0, false)) none, false)], true)]

/-- `launchOptionsSchema`, testOptions.ts lines 104–120. -/
def launchOptionsSchema : ZSchema :=
  .objS [
    ("channel", .strS, true),
    ("chromiumSandbox", .boolS, true),
    ("downloadsPath", .strS, true),
    ("executablePath", .strS, true),
    ("args", .arrS .strS, true),
    ("ignoreDefaultArgs", .unionS [.boolS, .arrS .strS], true),
    ("headless", .unionS [.boolS, .litS (.str "new")], true),
    ("proxy", proxySchema, true),
    ("timeout", .numS false (some (0, false)) none, true),
    ("slowMo", .numS false (some (0, true)) none, true),
    ("devtools", .boolS, true),
    ("env", .recordS .strS, true),
    ("handleSIGINT", .boolS, true),
    ("handleSIGTERM", .boolS, true),
    ("handleSIGHUP", .boolS, true)]

/-- `browserNameSchema`, testOptions.ts line 122. -/
def browserNameSchema : ZSchema := .enumS ["chromium", "firefox", "webkit"]

/-- `testOptionsSchema`, testOptions.ts lines 128–210 (`.loose()`: unknown
keys tolerated). -/
def testOptionsSchema : ZSchema :=
  .objS [
    ("agentOptions", .objS [
      ("model", .strS, false),
      ("apiKey", .strS, false),
      ("api", .enumS ["openai", "openai-compatible", "anthropic", "google"], true)], true),
    ("browserName", browserNameSchema, true),
    ("defaultBrowserType", browserNameSchema, true),
    ("channel", .strS, true),
    ("headless", .boolS, true),
    ("launchOptions", launchOptionsSchema, true),
    ("connectOptions", .objS [
      ("wsEndpoint", .strS, false),
      ("headers", .recordS .strS, true),
      ("timeout", .numS false (some (0, false)) none, true),
      ("_exposeNetwork", .strS, true)], true),
    ("viewport", .unionS [viewportSchema, .nullS], true),
    ("deviceScaleFactor", .numS false (some (0, false)) none, true),
    ("hasTouch", .boolS, true),
    ("isMobile", .boolS, true),
    ("userAgent", .strS, true),
    ("baseURL", .strS, true),
    ("geolocation", .unionS [geolocationSchema, .nullS], true),
    ("locale", .strS, true),
    ("timezoneId", .strS, true),
    ("offline", .boolS, true),
    ("acceptDownloads", .boolS, true),
    ("bypassCSP", .boolS, true),
    ("extraHTTPHeaders", .recordS .strS, true),
    ("ignoreHTTPSErrors", .boolS, true),
    ("proxy", .unionS [proxySchema, .nullS], true),
    ("clientCertificates", .arrS clientCertificateSchema, true),
    ("colorScheme", .enumS ["light", "dark", "no-preference", "null"], true),
    ("forcedColors", .enumS ["active", "none", "null"], true),
    ("reducedMotion", .enumS ["no-preference", "reduce", "null"], true),
    ("httpCredentials", .unionS [httpCredentialsSchema, .nullS], true),
    ("storageState", .unionS [storageStateSchema, .nullS], true),
    ("javaScriptEnabled", .boolS, true),
    ("permissions", .arrS .strS, true),
    ("serviceWorkers", .enumS ["allow", "block"], true),
    ("screenshot", .unionS [
      .enumS ["on", "off", "only-on-failure"],
      screenshotOptionsSchema], true),
    ("trace", .unionS [
      .enumS ["on", "off", "retain-on-failure", "on-first-retry", "retry-with-trace"],
      traceOptionsSchema], true),
    ("video", .unionS [
      .enumS ["on", "off", "retain-on-failure", "on-first-retry", "retry-with-video"],
      videoOptionsSchema], true),
    ("actionTimeout", .numS false (some (0, true)) none, true),
    ("navigationTimeout", .numS false (some (0, true)) none, true),
    ("testIdAttribute", .strS, true),
    ("ignoreSnapshots", .boolS, true),
    ("contextOptions", .recordS .anyS, true)]

/-- Modelled from the spec: `testConfigSchema` is imported from
`./schemas/config`, a repository file that is not available; the spec
describes it as an open (unknown-key-tolerant) schema whose checks include
`fullyParallel` (boolean), `failOnFlakyTests` (boolean), `globalTimeout`
(non-negative number), `preserveOutput` (one of `always`, `never`,
`failures-only`) and `tsconfig` (string, type-checked here and
existence-checked separately), with `fullyParallel` encountered before
`globalTimeout` in the fixed evaluation order (spec §4.3, §8). -/
def testConfigSchema : ZSchema :=
  .objS [
    ("fullyParallel", .boolS, true),
    ("failOnFlakyTests", .boolS, true),
    ("globalTimeout", .numS false (some (0, true)) none, true),
    ("preserveOutput", .enumS ["always", "never", "failures-only"], true),
    ("tsconfig", .strS, true)]

/-! ## The validators (configLoader.ts lines 144–291) -/

/-- The error value built by `errorWithFile(file, message)`. -/
structure VError where
  file : String
  message : String
deriving DecidableEq, Repr

mutual

/-- `JSON.stringify`; `none` models the JavaScript `undefined` result
(for `undefined` input).  Strings are quoted without escaping (no modelled
string needs escapes); `JSON.stringify` of a RegExp is `\x7b\x7d`. -/
def jsonStringify : JVal → Option String
  | .null => some "null"
  | .undefined => none
  | .bool b => some (cond b "true" "false")
  | .num n => some (toString n)
  | .str s => some ("\"" ++ s ++ "\"")
  | .regex _ => some "\x7b\x7d"
  | .arr xs => some ("[" ++ String.intercalate "," (jsonStringifyElems xs) ++ "]")
  | .obj fs => some ("\x7b" ++ String.intercalate "," (jsonStringifyFields fs) ++ "\x7d")

/-- Array elements; `undefined` elements serialize as `null`. -/
def jsonStringifyElems : List JVal → List String
  | [] => []
  | x :: xs => (jsonStringify x).getD "null" :: jsonStringifyElems xs

/-- Object entries; `undefined`-valued and symbol-keyed entries are
skipped. -/
def jsonStringifyFields : List (JKey × JVal) → List String
  | [] => []
  | (JKey.str k, v) :: fs =>
    match jsonStringify v with
    | some sv => ("\"" ++ k ++ "\":" ++ sv) :: jsonStringifyFields fs
    | none => jsonStringifyFields fs
  | (JKey.defineConfigSym, _) :: fs => jsonStringifyFields fs

end

/-- `` `Received: ${JSON.stringify(receivedValue)}` `` — a template
literal renders the `undefined` result of `JSON.stringify` as the text
`undefined`. -/
def showReceived (v : JVal) : String :=
  (jsonStringify v).getD "undefined"

/-- `issue.message.replace('Invalid input: ', '')` (the messages that
reach this replacement carry the 15-character prefix at the start or not
at all). -/
def stripInvalidInput (m : String) : String :=
  if m.take 15 = "Invalid input: " then m.drop 15 else m

/-- One step of the received-value walk `current = current[key]`:
property access on objects, index access on arrays (zod paths stringify
indices), `undefined` otherwise. -/
def walkProp : JVal → String → JVal
  | .obj o, k => getProp o k
  | .arr xs, k =>
    match k.toNat? with
    | some i => xs.getD i .undefined
    | none => .undefined
  | _, _ => .undefined

/-- The walk of configLoader.ts lines 159–161 / 256–258:
`for (const key of issue.path) current = current[key]`. -/
def walkPath (v : JVal) (path : List String) : JVal :=
  path.foldl walkProp v

/-- `typeof v === 'object'`. -/
def jsTypeofIsObject : JVal → Bool
  | .null => true
  | .obj _ => true
  | .arr _ => true
  | .regex _ => true
  | _ => false

def isStrV : JVal → Bool
  | .str _ => true
  | _ => false

def isRegExpV : JVal → Bool
  | .regex _ => true
  | _ => false

/-- The received value computed by the `invalid_value` / `too_small` /
`too_big` branches (configLoader.ts lines 173, 181, 270, 278): the
validated object indexed by the single **joined** path string,
`issue.path.length > 0 ? o[path] : undefined`. -/
def receivedAtJoinedPath (o : JVal) (issue : ZIssue) : JVal :=
  if issue.path.length > 0 then getPropV o (String.intercalate "." issue.path) else .undefined

/-- The received value computed by the `invalid_type` branches
(configLoader.ts lines 157–164, 254–261): walk the issue path into the
validated object. -/
def receivedByWalk (o : JVal) (issue : ZIssue) : JVal :=
  if issue.path.length > 0 then walkPath o issue.path else .undefined

/-- `validateTestOptions(file, use, title)`, configLoader.ts lines
243–291. -/
def validateTestOptions (file : String) (useObj : JVal) (title : String) :
    Except VError Unit :=
  match firstIssue testOptionsSchema [] useObj with
  | none => .ok ()
  | some issue =>
    let path := String.intercalate "." issue.path
    let fullPath := if path = "" then title else title ++ "." ++ path
    match issue.code with
    | .invalid_type =>
      let receivedValue := receivedByWalk useObj issue
      let message := stripInvalidInput issue.message
      .error ⟨file, "Configuration option \"" ++ fullPath ++ "\" " ++ message ++
        "\nReceived: " ++ showReceived receivedValue⟩
    | .invalid_value =>
      let receivedValue := receivedAtJoinedPath useObj issue
      .error ⟨file, "Configuration option \"" ++ fullPath ++ "\" " ++ issue.message ++
        "\nReceived: " ++ showReceived receivedValue⟩
    | .too_small =>
      let receivedValue := receivedAtJoinedPath useObj issue
      .error ⟨file, "Configuration option \"" ++ fullPath ++ "\" " ++ issue.message ++
        "\nReceived: " ++ showReceived receivedValue⟩
    | .too_big =>
      let receivedValue := receivedAtJoinedPath useObj issue
      .error ⟨file, "Configuration option \"" ++ fullPath ++ "\" " ++ issue.message ++
        "\nReceived: " ++ showReceived receivedValue⟩
    | _ =>
      .error ⟨file, "Configuration option \"" ++ fullPath ++ "\" " ++ issue.message⟩

/-- `value.forEach((item, index) => ...)` of configLoader.ts lines
225–228: each array element must be a string or a RegExp. -/
def validateMatchItems (file title prop : String) : Nat → List JVal → Except VError Unit
  | _, [] => .ok ()
  | i, x :: xs =>
    if ¬ isStrV x ∧ ¬ isRegExpV x then
      .error ⟨file, title ++ "." ++ prop ++ "[" ++ toString i ++ "] must be a string or a RegExp"⟩
    else validateMatchItems file title prop (i + 1) xs

/-- `'k' in project` (own string property present, even with value
`undefined`). -/
def keyIn : JVal → String → Bool
  | .obj o, k => (lookupKey o (.str k)).isSome
  | _, _ => false

/-- The `testIgnore`/`testMatch` check of configLoader.ts lines 221–233
for one property. -/
def validateMatchProp (file : String) (project : JVal) (title prop : String) :
    Except VError Unit :=
  if keyIn project prop ∧ ¬ isUndefined (getPropV project prop) then
    match getPropV project prop with
    | .arr xs => validateMatchItems file title prop 0 xs
    | v =>
      if ¬ isStrV v ∧ ¬ isRegExpV v then
        .error ⟨file, title ++ "." ++ prop ++ " must be a string or a RegExp"⟩
      else .ok ()
  else .ok ()

/-- `validateProject(file, project, title)`, configLoader.ts lines
216–241. -/
def validateProject (file : String) (project : JVal) (title : String) :
    Except VError Unit := do
  if ¬ (jsTypeofIsObject project ∧ truthy project) then
    throw ⟨file, title ++ " must be an object"⟩
  validateMatchProp file project title "testIgnore"
  validateMatchProp file project title "testMatch"
  if keyIn project "use" ∧ ¬ isUndefined (getPropV project "use") then
    if ¬ (truthy (getPropV project "use") ∧ jsTypeofIsObject (getPropV project "use")) then
      throw ⟨file, title ++ ".use must be an object"⟩
    else
      validateTestOptions file (getPropV project "use") (title ++ ".use")
  else
    pure ()

/-- The top-level issue rendering of configLoader.ts lines 150–192. -/
def renderConfigIssue (file : String) (config : JVal) (issue : ZIssue) : VError :=
  let path := String.intercalate "." issue.path
  match issue.code with
  | .invalid_type =>
    let receivedValue := receivedByWalk config issue
    let message := stripInvalidInput issue.message
    ⟨file, "Configuration option \"" ++ path ++ "\" " ++ message ++
      "\nReceived: " ++ showReceived receivedValue⟩
  | .invalid_value =>
    let receivedValue := receivedAtJoinedPath config issue
    ⟨file, "Configuration option \"" ++ path ++ "\" " ++ issue.message ++
      "\nReceived: " ++ showReceived receivedValue⟩
  | .too_small =>
    let receivedValue := receivedAtJoinedPath config issue
    ⟨file, "Configuration option \"" ++ path ++ "\" " ++ issue.message ++
      "\nReceived: " ++ showReceived receivedValue⟩
  | .too_big =>
    let receivedValue := receivedAtJoinedPath config issue
    ⟨file, "Configuration option \"" ++ path ++ "\" " ++ issue.message ++
      "\nReceived: " ++ showReceived receivedValue⟩
  | _ =>
    let propertyName := if path = "" then "configuration" else path
    ⟨file, "Configuration option \"" ++ propertyName ++ "\" " ++ issue.message⟩

/-- `config.projects.forEach((project, index) => validateProject(...))`,
configLoader.ts lines 203–207. -/
def validateProjectsList (file : String) : Nat → List JVal → Except VError Unit
  | _, [] => .ok ()
  | i, p :: ps => do
    validateProject file p ("config.projects[" ++ toString i ++ "]")
    validateProjectsList file (i + 1) ps

/-- `if (config.projects)` then iterate (a truthy non-array would throw
in JS; outside every claim). -/
def jsProjects (config : JVal) : List JVal :=
  match getPropV config "projects" with
  | .arr xs => xs
  | _ => []

/-- `validateConfig(file, config)`, configLoader.ts lines 144–214.  The
filesystem is the oracle `fsExistsAt`, applied to the resolved tsconfig
path (`path.resolve(file, '..', config.tsconfig)` modelled as
concatenation). -/
def validateConfig (fsExistsAt : String → Bool) (file : String) (config : JVal) :
    Except VError Unit := do
  if ¬ (jsTypeofIsObject config ∧ truthy config) then
    throw ⟨file, "Configuration file must export a single object"⟩
  match firstIssue testConfigSchema [] config with
  | some issue => throw (renderConfigIssue file config issue)
  | none =>
    validateProject file config "config"
    if ¬ isUndefined (getPropV config "use") then
      validateTestOptions file (getPropV config "use") "config.use"
    else
      pure ()
    validateProjectsList file 0 (jsProjects config)
    match getPropV config "tsconfig" with
    | .str s =>
      if s ≠ "" ∧ ¬ fsExistsAt (file ++ "/../" ++ s) then
        throw ⟨file, "config.tsconfig does not exist"⟩
      else
        pure ()
    | _ => pure ()

/-! ## The location resolver (configLoader.ts lines 293–328) -/

/-- The filesystem, as the two read-only queries the resolver makes. -/
structure FileSystem where
  existsSync : String → Bool
  isDirectory : String → Bool

/-- `ConfigLocation` (from `./config`). -/
structure ConfigLocation where
  resolvedConfigFile : Option String
  configDir : String
deriving DecidableEq, Repr

/-- `path.resolve(directory, name)` for a relative `name`: modelled as
slash concatenation. -/
def joinPath (dir name : String) : String := dir ++ "/" ++ name

/-- `path.resolve(cwd, p)`: absolute paths (leading slash) stand alone,
relative ones are joined to `cwd`. -/
def pathResolve (cwd p : String) : String :=
  if p.take 1 = "/" then p else joinPath cwd p

/-- `path.dirname`. -/
def dirname (p : String) : String :=
  let parts := p.splitOn "/"
  if parts.length ≤ 1 then "." else String.intercalate "/" parts.dropLast

/-- The candidate extension list of configLoader.ts line 309, in source
order. -/
def kConfigExtensions : List String := [".ts", ".js", ".mts", ".mjs", ".cts", ".cjs"]

/-- `resolveConfig` (configLoader.ts lines 303–306): the file if it
exists. -/
def resolveConfig (fs : FileSystem) (configFile : String) : Option String :=
  if fs.existsSync configFile then some configFile else none

/-- The extension loop of `resolveConfigFileFromDirectory`
(configLoader.ts lines 308–314). -/
def resolveFromDirectoryLoop (fs : FileSystem) (directory : String) :
    List String → Option String
  | [] => none
  | ext :: rest =>
    match resolveConfig fs (joinPath directory ("playwright.config" ++ ext)) with
    | some f => some f
    | none => resolveFromDirectoryLoop fs directory rest

/-- `resolveConfigFileFromDirectory(directory)`. -/
def resolveConfigFileFromDirectory (fs : FileSystem) (directory : String) :
    Option String :=
  resolveFromDirectoryLoop fs directory kConfigExtensions

/-- `resolveConfigFile(configFileOrDirectory)`, configLoader.ts lines
302–328; `.error` models the thrown `Error`. -/
def resolveConfigFile (fs : FileSystem) (configFileOrDirectory : String) :
    Except String (Option String) :=
  if ¬ fs.existsSync configFileOrDirectory then
    .error (configFileOrDirectory ++ " does not exist")
  else if fs.isDirectory configFileOrDirectory then
    match resolveConfigFileFromDirectory fs configFileOrDirectory with
    | some configFile => .ok (some configFile)
    | none => .ok none
  else
    .ok (some configFileOrDirectory)

/-- `resolveConfigLocation(configFile)`, configLoader.ts lines 293–300. -/
def resolveConfigLocation (fs : FileSystem) (cwd : String)
    (configFile : Option String) : Except String ConfigLocation :=
  let configFileOrDirectory :=
    match configFile with
    | some f => pathResolve cwd f
    | none => cwd
  match resolveConfigFile fs configFileOrDirectory with
  | .error e => .error e
  | .ok resolvedConfigFile =>
    .ok {
      resolvedConfigFile,
      configDir :=
        match resolvedConfigFile with
        | some f => dirname f
        | none => configFileOrDirectory }

end PW

namespace PW

/-! ## Object lemmas -/

/-- Keys of an object, in order. -/
def objKeys (o : Obj) : List JKey := o.map (·.1)

/-- First-defined choice between two optional values (the value an
object spread produces for one key: the override if it has the key,
otherwise the base). -/
def firstSome (a b : Option JVal) : Option JVal :=
  match a with
  | some v => some v
  | none => b

theorem lookupKey_setKey_self (o : Obj) (k : JKey) (v : JVal) :
    lookupKey (setKey o k v) k = some v := by
  induction o with
  | nil => simp [setKey, lookupKey]
  | cons kv rest ih =>
    obtain ⟨k', v'⟩ := kv
    by_cases h : k' = k
    · simp [setKey, h, lookupKey]
    · simp [setKey, h, lookupKey, ih]

theorem lookupKey_setKey_ne (o : Obj) (k k' : JKey) (v : JVal) (h : k' ≠ k) :
    lookupKey (setKey o k v) k' = lookupKey o k' := by
  induction o with
  | nil => simp [setKey, lookupKey, Ne.symm h]
  | cons kv rest ih =>
    obtain ⟨k0, v0⟩ := kv
    by_cases h0 : k0 = k
    · subst h0
      simp [setKey, lookupKey, Ne.symm h]
    · by_cases h1 : k0 = k'
      · simp [setKey, h0, lookupKey, h1, h]
      · simp [setKey, h0, lookupKey, h1, ih]

theorem lookupKey_eq_none_of_not_mem (o : Obj) (k : JKey) (h : k ∉ objKeys o) :
    lookupKey o k = none := by
  induction o with
  | nil => simp [lookupKey]
  | cons kv rest ih =>
    simp only [objKeys, List.map_cons, List.mem_cons] at h
    push_neg at h
    simpa [lookupKey, Ne.symm h.1] using ih (by simpa [objKeys] using h.2)

theorem setKey_eq_append_of_not_mem (o : Obj) (k : JKey) (v : JVal)
    (h : k ∉ objKeys o) : setKey o k v = o ++ [(k, v)] := by
  induction o with
  | nil => simp [setKey]
  | cons kv rest ih =>
    simp only [objKeys, List.map_cons, List.mem_cons] at h
    push_neg at h
    simp [setKey, h.1.symm, ih (by simpa [objKeys] using h.2)]

theorem lookupKey_spreadFields (more : Obj) (base : Obj) (k : JKey)
    (h : (objKeys more).Nodup) :
    lookupKey (spreadFields base more) k =
      firstSome (lookupKey more k) (lookupKey base k) := by
  induction more generalizing base with
  | nil => simp [spreadFields, lookupKey, firstSome]
  | cons kv rest ih =>
    obtain ⟨k0, v0⟩ := kv
    simp only [objKeys, List.map_cons, List.nodup_cons] at h
    have hstep : spreadFields base ((k0, v0) :: rest) =
        spreadFields (setKey base k0 v0) rest := by
      simp [spreadFields]
    rw [hstep, ih (setKey base k0 v0) (by simpa [objKeys] using h.2)]
    by_cases h0 : k0 = k
    · subst h0
      rw [lookupKey_eq_none_of_not_mem rest k0 (by simpa [objKeys] using h.1)]
      simp [lookupKey, firstSome, lookupKey_setKey_self]
    · simp [lookupKey, h0, lookupKey_setKey_ne base k0 k v0 (Ne.symm h0)]

/-- `getProp` specializations. -/
theorem getProp_setKey_self (o : Obj) (s : String) (v : JVal) :
    getProp (setKey o (.str s) v) s = v := by
  simp [getProp, lookupKey_setKey_self]

theorem getProp_setKey_ne (o : Obj) (s s' : String) (v : JVal) (h : s' ≠ s) :
    getProp (setKey o (.str s) v) s' = getProp o s' := by
  simp [getProp, lookupKey_setKey_ne o (.str s) (.str s') v (by simpa using h)]

theorem getProp_setKey_sym (o : Obj) (s : String) (v : JVal) :
    getProp (setKey o .defineConfigSym v) s = getProp o s := by
  simp [getProp, lookupKey_setKey_ne o .defineConfigSym (.str s) v (by simp)]

/-! ## `mergeBase` key-by-key characterization -/

theorem getProp_mergeBase_expect (a b : Obj) :
    getProp (mergeBase a b) "expect" =
      .obj (spreadVal (spreadVal [] (getProp a "expect")) (getProp b "expect")) := by
  unfold mergeBase
  rw [getProp_setKey_ne _ _ _ _ (by decide), getProp_setKey_ne _ _ _ _ (by decide),
    getProp_setKey_ne _ _ _ _ (by decide), getProp_setKey_self]

theorem getProp_mergeBase_use (a b : Obj) :
    getProp (mergeBase a b) "use" =
      .obj (spreadVal (spreadVal [] (getProp a "use")) (getProp b "use")) := by
  unfold mergeBase
  rw [getProp_setKey_ne _ _ _ _ (by decide), getProp_setKey_ne _ _ _ _ (by decide),
    getProp_setKey_self]

theorem getProp_mergeBase_build (a b : Obj) :
    getProp (mergeBase a b) "build" =
      .obj (spreadVal (spreadVal [] (getProp a "build")) (getProp b "build")) := by
  unfold mergeBase
  rw [getProp_setKey_ne _ _ _ _ (by decide), getProp_setKey_self]

theorem getProp_mergeBase_webServer (a b : Obj) :
    getProp (mergeBase a b) "webServer" =
      .arr (normWebServer (getProp a "webServer") ++ normWebServer (getProp b "webServer")) := by
  unfold mergeBase
  rw [getProp_setKey_self]

theorem getProp_mergeBase_other (a b : Obj) (s : String)
    (h1 : s ≠ "expect") (h2 : s ≠ "use") (h3 : s ≠ "build") (h4 : s ≠ "webServer") :
    getProp (mergeBase a b) s = getProp (spreadFields a b) s := by
  unfold mergeBase
  rw [getProp_setKey_ne _ _ _ _ h4, getProp_setKey_ne _ _ _ _ h3,
    getProp_setKey_ne _ _ _ _ h2, getProp_setKey_ne _ _ _ _ h1]

theorem getProp_mergeStep_ne_projects (a b : Obj) (s : String) (h : s ≠ "projects") :
    getProp (mergeStep a b) s = getProp (mergeBase a b) s := by
  simp only [mergeStep]
  split
  · rfl
  · exact getProp_setKey_ne _ _ _ _ h

theorem getProp_mergeStep_projects_of_truthy (a b : Obj)
    (h : truthy (getProp b "projects") = true) :
    getProp (mergeStep a b) "projects" =
      .arr ((mergeProjectsLoop (jsIter (getProp a "projects"))
              (buildOverrides (jsIter (getProp b "projects")))).1 ++
        mapValues (mergeProjectsLoop (jsIter (getProp a "projects"))
              (buildOverrides (jsIter (getProp b "projects")))).2) := by
  unfold mergeStep
  simp [h, getProp_setKey_self]

end PW

namespace PW

/-! ## Claim C4: shallow merge of `expect`, `use`, `build` -/

theorem firstSome_none_right (a : Option JVal) : firstSome a none = a := by
  cases a <;> rfl

/-- C4: in every merge fold step the `expect`, `use` and `build`
sub-objects are shallow-merged: the result's sub-object maps each key to
the current fragment's value when it has the key and to the accumulator's
value otherwise (base keys survive, the whole sub-object is never
replaced).  In particular `defineConfig` of `{use:{a:1,b:1}}` then
`{use:{b:2}}` yields `use = {a:1,b:2}`. -/
theorem mergeStep_shallow_merges_sub_objects :
    (∀ (a b : Obj) (sub : String) (ua ub : Obj),
      sub ∈ (["expect", "use", "build"] : List String) →
      getProp a sub = .obj ua → getProp b sub = .obj ub →
      (objKeys ua).Nodup → (objKeys ub).Nodup →
      ∃ uo : Obj, getProp (mergeStep a b) sub = .obj uo ∧
        ∀ k : JKey, lookupKey uo k = firstSome (lookupKey ub k) (lookupKey ua k)) ∧
    getProp (defineConfig
      [[(.str "use", .obj [(.str "a", .num 1), (.str "b", .num 1)])],
       [(.str "use", .obj [(.str "b", .num 2)])]]) "use" =
      .obj [(.str "a", .num 1), (.str "b", .num 2)] := by
  constructor
  · intro a b sub ua ub hsub ha hb hua hub
    have hkey : ∀ k : JKey,
        lookupKey (spreadFields (spreadFields [] ua) ub) k =
          firstSome (lookupKey ub k) (lookupKey ua k) := by
      intro k
      rw [lookupKey_spreadFields ub _ k hub, lookupKey_spreadFields ua _ k hua]
      simp [lookupKey, firstSome_none_right]
    simp only [List.mem_cons, List.mem_singleton] at hsub
    rcases hsub with h | h | h | h
    · subst h
      rw [getProp_mergeStep_ne_projects a b _ (by decide), getProp_mergeBase_expect, ha, hb]
      exact ⟨_, rfl, hkey⟩
    · subst h
      rw [getProp_mergeStep_ne_projects a b _ (by decide), getProp_mergeBase_use, ha, hb]
      exact ⟨_, rfl, hkey⟩
    · subst h
      rw [getProp_mergeStep_ne_projects a b _ (by decide), getProp_mergeBase_build, ha, hb]
      exact ⟨_, rfl, hkey⟩
    · cases h
  · rfl

/-- Witness for C4 at the claim's own example. -/
theorem mergeStep_shallow_merges_sub_objects_witness :
    ("use" ∈ (["expect", "use", "build"] : List String)) ∧
    (∃ uo : Obj,
      getProp (mergeStep
        [(.str "use", .obj [(.str "a", .num 1), (.str "b", .num 1)])]
        [(.str "use", .obj [(.str "b", .num 2)])]) "use" = .obj uo ∧
      ∀ k : JKey, lookupKey uo k =
        firstSome (lookupKey [(.str "b", .num 2)] k)
          (lookupKey [(.str "a", .num 1), (.str "b", .num 1)] k)) :=
  ⟨by decide,
    mergeStep_shallow_merges_sub_objects.1
      [(.str "use", .obj [(.str "a", .num 1), (.str "b", .num 1)])]
      [(.str "use", .obj [(.str "b", .num 2)])] "use"
      [(.str "a", .num 1), (.str "b", .num 1)] [(.str "b", .num 2)]
      (by decide) rfl rfl (by decide) (by decide)⟩

/-! ## Claim C5: webServer normalization and concatenation -/

/-- The spec's webServer normalization (§4.2): an absent value is the
empty sequence, a sequence stands for itself, a scalar (a single
server-descriptor object) becomes a one-element sequence; other shapes
are outside the spec's data model. -/
def webServerSeqSpec : JVal → Option (List JVal)
  | .undefined => some []
  | .arr xs => some xs
  | .obj o => some [.obj o]
  | _ => none

/-- C5: every merge fold step normalizes both sides' `webServer` to a
sequence (absent → empty, descriptor object → singleton) and concatenates
accumulator's sequence with the fragment's, in that order.  In
particular `defineConfig` of `{webServer:{port:1}}` then
`{webServer:[{port:2}]}` yields `webServer = [{port:1},{port:2}]`. -/
theorem mergeStep_concatenates_webServer :
    (∀ (a b : Obj) (la lb : List JVal),
      webServerSeqSpec (getProp a "webServer") = some la →
      webServerSeqSpec (getProp b "webServer") = some lb →
      getProp (mergeStep a b) "webServer" = .arr (la ++ lb)) ∧
    getProp (defineConfig
      [[(.str "webServer", .obj [(.str "port", .num 1)])],
       [(.str "webServer", .arr [.obj [(.str "port", .num 2)]])]]) "webServer" =
      .arr [.obj [(.str "port", .num 1)], .obj [(.str "port", .num 2)]] := by
  constructor
  · intro a b la lb ha hb
    rw [getProp_mergeStep_ne_projects a b _ (by decide), getProp_mergeBase_webServer]
    have ha' : normWebServer (getProp a "webServer") = la := by
      revert ha
      cases getProp a "webServer" <;> simp [webServerSeqSpec, normWebServer, truthy]
    have hb' : normWebServer (getProp b "webServer") = lb := by
      revert hb
      cases getProp b "webServer" <;> simp [webServerSeqSpec, normWebServer, truthy]
    rw [ha', hb']
  · rfl

/-- Witness for C5 at the claim's own example. -/
theorem mergeStep_concatenates_webServer_witness :
    webServerSeqSpec (getProp [(.str "webServer", .obj [(.str "port", .num 1)])] "webServer") =
      some [.obj [(.str "port", .num 1)]] ∧
    getProp (mergeStep
      [(.str "webServer", .obj [(.str "port", .num 1)])]
      [(.str "webServer", .arr [.obj [(.str "port", .num 2)]])]) "webServer" =
      .arr ([.obj [(.str "port", .num 1)]] ++ [.obj [(.str "port", .num 2)]]) :=
  ⟨rfl,
    mergeStep_concatenates_webServer.1
      [(.str "webServer", .obj [(.str "port", .num 1)])]
      [(.str "webServer", .arr [.obj [(.str "port", .num 2)]])]
      [.obj [(.str "port", .num 1)]] [.obj [(.str "port", .num 2)]] rfl rfl⟩

end PW

namespace PW

/-! ## SameValueZero and Map lemmas -/

theorem sameValueZero_symm (a b : JVal) : sameValueZero a b = sameValueZero b a := by
  cases a <;> cases b <;> simp [sameValueZero, beq_iff_eq, eq_comm]

theorem sameValueZero_congr_left (a b c : JVal) (h : sameValueZero a b = true) :
    sameValueZero a c = sameValueZero b c := by
  cases a <;> cases b <;> simp [sameValueZero, beq_iff_eq] at h <;>
    (try subst h) <;> rfl

theorem sameValueZero_trans (a b c : JVal) (h1 : sameValueZero a b = true)
    (h2 : sameValueZero b c = true) : sameValueZero a c = true := by
  rw [sameValueZero_congr_left a b c h1]
  exact h2

theorem mapGet_eq_none_iff (m : List (JVal × JVal)) (n : JVal) :
    mapGet m n = none ↔ ∀ e ∈ m, sameValueZero e.1 n = false := by
  induction m with
  | nil => simp [mapGet]
  | cons e rest ih =>
    obtain ⟨k, v⟩ := e
    by_cases hk : sameValueZero k n = true
    · constructor
      · intro hc
        simp [mapGet, hk] at hc
      · intro hall
        exact absurd (hall ⟨k, v⟩ (by simp)) (by simp [hk])
    · simp only [Bool.not_eq_true] at hk
      simp [mapGet, hk, ih]

theorem mapGet_mapDelete_ne (m : List (JVal × JVal)) (k n : JVal)
    (h : sameValueZero k n = false) :
    mapGet (mapDelete m k) n = mapGet m n := by
  induction m with
  | nil => simp [mapDelete]
  | cons e rest ih =>
    obtain ⟨k0, v0⟩ := e
    by_cases h0 : sameValueZero k0 k = true
    · have : sameValueZero k0 n = false := by
        rw [sameValueZero_congr_left k0 k n h0]
        exact h
      simp [mapDelete, h0, mapGet, this]
    · simp only [Bool.not_eq_true] at h0
      simp only [mapDelete, h0, Bool.false_eq_true, if_false]
      by_cases h1 : sameValueZero k0 n = true
      · simp [mapGet, h1]
      · simp only [Bool.not_eq_true] at h1
        simp [mapGet, h1, ih]

theorem mapGet_mapDelete_none (m : List (JVal × JVal)) (k n : JVal)
    (h : mapGet m n = none) : mapGet (mapDelete m k) n = none := by
  induction m with
  | nil => simp [mapDelete, mapGet]
  | cons e rest ih =>
    obtain ⟨k0, v0⟩ := e
    rw [mapGet_eq_none_iff] at h
    have h0 : sameValueZero k0 n = false := h ⟨k0, v0⟩ (by simp)
    have hrest : mapGet rest n = none := by
      rw [mapGet_eq_none_iff]
      exact fun e he => h e (by simp [he])
    by_cases h1 : sameValueZero k0 k = true
    · simpa [mapDelete, h1] using hrest
    · simp only [Bool.not_eq_true] at h1
      simp [mapDelete, h1, mapGet, h0, ih hrest]

theorem mapGet_congr (m : List (JVal × JVal)) (n n' : JVal)
    (h : sameValueZero n n' = true) : mapGet m n = mapGet m n' := by
  induction m with
  | nil => rfl
  | cons e rest ih =>
    obtain ⟨k, v⟩ := e
    have hk : sameValueZero k n = sameValueZero k n' := by
      rw [sameValueZero_symm k n, sameValueZero_symm k n']
      exact sameValueZero_congr_left n n' k h
    simp [mapGet, hk, ih]

/-- `mapDelete` yields a sublist (it only removes). -/
theorem mapDelete_sublist (m : List (JVal × JVal)) (k : JVal) :
    (mapDelete m k).Sublist m := by
  induction m with
  | nil => simp [mapDelete]
  | cons e rest ih =>
    by_cases h : sameValueZero e.1 k = true
    · simp only [mapDelete, h, if_true]
      exact List.sublist_cons_self e rest
    · simp only [Bool.not_eq_true] at h
      simp only [mapDelete, h, Bool.false_eq_true, if_false]
      exact List.Sublist.cons₂ e ih

/-- The loop's remaining override map is a sublist of the input map. -/
theorem mergeProjectsLoop_snd_sublist (xs : List JVal) (m : List (JVal × JVal)) :
    (mergeProjectsLoop xs m).2.Sublist m := by
  induction xs generalizing m with
  | nil => simp [mergeProjectsLoop]
  | cons p rest ih =>
    simp only [mergeProjectsLoop]
    cases hget : mapGet m (getPropV p "name") with
    | none => exact ih m
    | some ov =>
      by_cases htr : truthy ov = true
      · simp only [htr, if_true]
        exact ((ih (mapDelete m (getPropV p "name"))).trans
          (mapDelete_sublist m (getPropV p "name")))
      · simp only [Bool.not_eq_true] at htr
        simp only [htr, Bool.false_eq_true, if_false]
        exact ih m

theorem mergeProjectsLoop_fst_length (xs : List JVal) (m : List (JVal × JVal)) :
    (mergeProjectsLoop xs m).1.length = xs.length := by
  induction xs generalizing m with
  | nil => simp [mergeProjectsLoop]
  | cons p rest ih =>
    simp only [mergeProjectsLoop]
    cases hget : mapGet m (getPropV p "name") with
    | none => simp [ih]
    | some ov =>
      by_cases htr : truthy ov = true
      · simp [htr, ih]
      · simp only [Bool.not_eq_true] at htr
        simp [htr, ih]

theorem mergeProjectsLoop_append (xs ys : List JVal) (m : List (JVal × JVal)) :
    mergeProjectsLoop (xs ++ ys) m =
      ((mergeProjectsLoop xs m).1 ++ (mergeProjectsLoop ys (mergeProjectsLoop xs m).2).1,
       (mergeProjectsLoop ys (mergeProjectsLoop xs m).2).2) := by
  induction xs generalizing m with
  | nil => simp [mergeProjectsLoop]
  | cons p rest ih =>
    simp only [List.cons_append, mergeProjectsLoop]
    cases hget : mapGet m (getPropV p "name") with
    | none => simp [ih]
    | some ov =>
      by_cases htr : truthy ov = true
      · simp [htr, ih]
      · simp only [Bool.not_eq_true] at htr
        simp [htr, ih]

/-- Processing base projects none of which is named (SameValueZero) `n`
leaves the map's answer for `n` unchanged. -/
theorem mergeProjectsLoop_mapGet_preserved (xs : List JVal) (m : List (JVal × JVal))
    (n : JVal) (h : ∀ q ∈ xs, sameValueZero (getPropV q "name") n = false) :
    mapGet (mergeProjectsLoop xs m).2 n = mapGet m n := by
  induction xs generalizing m with
  | nil => simp [mergeProjectsLoop]
  | cons p rest ih =>
    have hp : sameValueZero (getPropV p "name") n = false := h p (by simp)
    have hrest : ∀ q ∈ rest, sameValueZero (getPropV q "name") n = false :=
      fun q hq => h q (by simp [hq])
    simp only [mergeProjectsLoop]
    cases hget : mapGet m (getPropV p "name") with
    | none => simp [ih _ hrest]
    | some ov =>
      by_cases htr : truthy ov = true
      · simp [htr, ih _ hrest, mapGet_mapDelete_ne m _ n hp]
      · simp only [Bool.not_eq_true] at htr
        simp [htr, ih _ hrest]

theorem mergeProjectsLoop_mapGet_none (xs : List JVal) (m : List (JVal × JVal))
    (n : JVal) (h : mapGet m n = none) :
    mapGet (mergeProjectsLoop xs m).2 n = none := by
  have := (mergeProjectsLoop_snd_sublist xs m).subset
  rw [mapGet_eq_none_iff] at h ⊢
  exact fun e he => h e (this he)

/-- When the map cannot answer for name `n`, every base project named
(SameValueZero) `n` passes through the loop unchanged, at its position. -/
theorem mergeProjectsLoop_passthrough (xs : List JVal) (m : List (JVal × JVal))
    (n : JVal) (h : mapGet m n = none) :
    ∀ i, i < xs.length →
      sameValueZero (getPropV (xs.getD i .undefined) "name") n = true →
      (mergeProjectsLoop xs m).1.getD i .undefined = xs.getD i .undefined := by
  induction xs generalizing m with
  | nil => intro i hi; simp at hi
  | cons p rest ih =>
    intro i hi hname
    cases i with
    | zero =>
      simp only [List.getD_cons_zero] at hname ⊢
      have hp : mapGet m (getPropV p "name") = none := by
        rw [mapGet_congr m _ n hname]
        exact h
      simp [mergeProjectsLoop, hp]
    | succ j =>
      simp only [List.getD_cons_succ] at hname ⊢
      have hj : j < rest.length := by simpa using hi
      simp only [mergeProjectsLoop]
      cases hget : mapGet m (getPropV p "name") with
      | none => simpa using ih m h j hj hname
      | some ov =>
        by_cases htr : truthy ov = true
        · have hdel : mapGet (mapDelete m (getPropV p "name")) n = none :=
            mapGet_mapDelete_none m _ n h
          simpa [htr] using ih _ hdel j hj hname
        · simp only [Bool.not_eq_true] at htr
          simpa [htr] using ih m h j hj hname

end PW

namespace PW

/-! ## `buildOverrides` invariants -/

/-- Pairwise-distinct map keys (SameValueZero) — the defining invariant
of a JS `Map`. -/
def PairwiseKeys (m : List (JVal × JVal)) : Prop :=
  m.Pairwise (fun e f => sameValueZero e.1 f.1 = false)

theorem mapSet_mem_cases (m : List (JVal × JVal)) (k v : JVal) :
    ∀ e ∈ mapSet m k v, e ∈ m ∨ e = (k, v) := by
  induction m with
  | nil => simp [mapSet]
  | cons f rest ih =>
    intro e he
    by_cases h : sameValueZero f.1 k = true
    · simp only [mapSet, h, if_true, List.mem_cons] at he
      rcases he with he | he
      · exact Or.inr he
      · exact Or.inl (by simp [he])
    · simp only [Bool.not_eq_true] at h
      simp only [mapSet, h, Bool.false_eq_true, if_false, List.mem_cons] at he
      rcases he with he | he
      · exact Or.inl (by simp [he])
      · rcases ih e he with h1 | h1
        · exact Or.inl (by simp [h1])
        · exact Or.inr h1

theorem mapSet_pairwiseKeys (m : List (JVal × JVal)) (k v : JVal)
    (h : PairwiseKeys m) : PairwiseKeys (mapSet m k v) := by
  induction m with
  | nil => simp [mapSet, PairwiseKeys]
  | cons f rest ih =>
    obtain ⟨hhead, htail⟩ := List.pairwise_cons.1 h
    by_cases hk : sameValueZero f.1 k = true
    · simp only [mapSet, hk, if_true]
      refine List.pairwise_cons.2 ⟨?_, htail⟩
      intro g hg
      have := hhead g hg
      rw [← sameValueZero_congr_left f.1 k g.1 hk]
      exact this
    · simp only [Bool.not_eq_true] at hk
      simp only [mapSet, hk, Bool.false_eq_true, if_false]
      refine List.pairwise_cons.2 ⟨?_, ih htail⟩
      intro g hg
      rcases mapSet_mem_cases rest k v g hg with h1 | h1
      · exact hhead g h1
      · rw [h1]
        exact hk

theorem buildOverrides_pairwiseKeys (os : List JVal) :
    PairwiseKeys (buildOverrides os) := by
  have aux : ∀ (l : List JVal) (acc : List (JVal × JVal)), PairwiseKeys acc →
      PairwiseKeys (l.foldl (fun m q => mapSet m (getPropV q "name") q) acc) := by
    intro l
    induction l with
    | nil => intro acc h; exact h
    | cons q rest ih =>
      intro acc h
      exact ih _ (mapSet_pairwiseKeys acc _ q h)
  exact aux os [] (by simp [PairwiseKeys])

theorem buildOverrides_key_name (os : List JVal) :
    ∀ e ∈ buildOverrides os, e.1 = getPropV e.2 "name" := by
  have aux : ∀ (l : List JVal) (acc : List (JVal × JVal)),
      (∀ e ∈ acc, e.1 = getPropV e.2 "name") →
      ∀ e ∈ l.foldl (fun m q => mapSet m (getPropV q "name") q) acc,
        e.1 = getPropV e.2 "name" := by
    intro l
    induction l with
    | nil => intro acc h; exact h
    | cons q rest ih =>
      intro acc h
      refine ih _ ?_
      intro e he
      rcases mapSet_mem_cases acc (getPropV q "name") q e he with h1 | h1
      · exact h e h1
      · rw [h1]
  exact aux os [] (by simp)

theorem mapGet_mapDelete_self (m : List (JVal × JVal)) (n : JVal)
    (h : PairwiseKeys m) : mapGet (mapDelete m n) n = none := by
  induction m with
  | nil => simp [mapDelete, mapGet]
  | cons e rest ih =>
    obtain ⟨hhead, htail⟩ := List.pairwise_cons.1 h
    by_cases hk : sameValueZero e.1 n = true
    · simp only [mapDelete, hk, if_true]
      rw [mapGet_eq_none_iff]
      intro f hf
      by_cases hf1 : sameValueZero f.1 n = true
      · exfalso
        have h1 : sameValueZero e.1 f.1 = true :=
          sameValueZero_trans e.1 n f.1 hk (by rw [sameValueZero_symm]; exact hf1)
        have := hhead f hf
        simp [h1] at this
      · simpa using hf1
    · simp only [Bool.not_eq_true] at hk
      simp [mapDelete, hk, mapGet, ih htail]

end PW

namespace PW

/-! ## Claim C10: earliest duplicate base name wins -/

/-- C10: in a fold step whose accumulated base project list is
`pre ++ p :: post`, where `p` is the earliest base project named `n` and
the override map answers `n` with a truthy override `o`, the result is
`A ++ [merged p o] ++ B ++ C` with: `A` the images of `pre`, `B` the
images of `post` in which every project named `n` passes through
unchanged, and `C` the appended leftovers, none of which is named `n`
(the consumed override is not additionally appended). -/
theorem mergeStep_earliest_duplicate_name_merged
    (a b : Obj) (pre post : List JVal) (p o n : JVal) (os : List JVal)
    (ha : getProp a "projects" = .arr (pre ++ p :: post))
    (hb : getProp b "projects" = .arr os)
    (hn : getPropV p "name" = n)
    (hpre : ∀ q ∈ pre, sameValueZero (getPropV q "name") n = false)
    (hget : mapGet (buildOverrides os) n = some o)
    (htr : truthy o = true) :
    ∃ A B C : List JVal,
      getProp (mergeStep a b) "projects" = .arr (A ++ mergeProjectObj p o :: (B ++ C)) ∧
      A.length = pre.length ∧ B.length = post.length ∧
      (∀ i, i < post.length →
        sameValueZero (getPropV (post.getD i .undefined) "name") n = true →
        B.getD i .undefined = post.getD i .undefined) ∧
      (∀ c ∈ C, sameValueZero (getPropV c "name") n = false) := by
  have hbt : truthy (getProp b "projects") = true := by rw [hb]; rfl
  have hres := getProp_mergeStep_projects_of_truthy a b hbt
  rw [ha, hb] at hres
  simp only [jsIter] at hres
  have h1 : mapGet (mergeProjectsLoop pre (buildOverrides os)).2 n = some o := by
    rw [mergeProjectsLoop_mapGet_preserved pre (buildOverrides os) n hpre]
    exact hget
  have hpk : PairwiseKeys (mergeProjectsLoop pre (buildOverrides os)).2 :=
    List.Pairwise.sublist (mergeProjectsLoop_snd_sublist pre (buildOverrides os))
      (buildOverrides_pairwiseKeys os)
  have hM2 : mapGet (mapDelete (mergeProjectsLoop pre (buildOverrides os)).2 n) n = none :=
    mapGet_mapDelete_self _ n hpk
  have hstep : mergeProjectsLoop (p :: post) (mergeProjectsLoop pre (buildOverrides os)).2 =
      (mergeProjectObj p o ::
        (mergeProjectsLoop post
          (mapDelete (mergeProjectsLoop pre (buildOverrides os)).2 n)).1,
       (mergeProjectsLoop post
          (mapDelete (mergeProjectsLoop pre (buildOverrides os)).2 n)).2) := by
    simp only [mergeProjectsLoop, hn, h1, htr, if_true]
  rw [mergeProjectsLoop_append pre (p :: post) (buildOverrides os), hstep] at hres
  refine ⟨(mergeProjectsLoop pre (buildOverrides os)).1,
    (mergeProjectsLoop post
      (mapDelete (mergeProjectsLoop pre (buildOverrides os)).2 n)).1,
    mapValues (mergeProjectsLoop post
      (mapDelete (mergeProjectsLoop pre (buildOverrides os)).2 n)).2,
    ?_, mergeProjectsLoop_fst_length pre _, mergeProjectsLoop_fst_length post _,
    ?_, ?_⟩
  · rw [hres]
    simp
  · exact mergeProjectsLoop_passthrough post _ n hM2
  · intro c hc
    simp only [mapValues, List.mem_map] at hc
    obtain ⟨e, he, hec⟩ := hc
    have hsub : e ∈ buildOverrides os := by
      have s1 := (mergeProjectsLoop_snd_sublist post
        (mapDelete (mergeProjectsLoop pre (buildOverrides os)).2 n)).subset
      have s2 := (mapDelete_sublist (mergeProjectsLoop pre (buildOverrides os)).2 n).subset
      have s3 := (mergeProjectsLoop_snd_sublist pre (buildOverrides os)).subset
      exact s3 (s2 (s1 he))
    have hkey : e.1 = getPropV e.2 "name" := buildOverrides_key_name os e hsub
    have hnone : mapGet (mergeProjectsLoop post
        (mapDelete (mergeProjectsLoop pre (buildOverrides os)).2 n)).2 n = none :=
      mergeProjectsLoop_mapGet_none post _ n hM2
    rw [mapGet_eq_none_iff] at hnone
    have := hnone e he
    rw [hkey, hec] at this
    exact this

end PW

namespace PW

/-- Witness for C10: base projects `[{name:"a",x:1},{name:"a",x:2}]`
merged with override `[{name:"a",y:5}]`. -/
theorem mergeStep_earliest_duplicate_name_merged_witness :
    (getPropV (JVal.obj [(.str "name", .str "a"), (.str "x", .num 1)]) "name" = .str "a") ∧
    (mapGet (buildOverrides [JVal.obj [(.str "name", .str "a"), (.str "y", .num 5)]])
      (.str "a") = some (JVal.obj [(.str "name", .str "a"), (.str "y", .num 5)])) ∧
    (∃ A B C : List JVal,
      getProp (mergeStep
        [(.str "projects", .arr
          [.obj [(.str "name", .str "a"), (.str "x", .num 1)],
           .obj [(.str "name", .str "a"), (.str "x", .num 2)]])]
        [(.str "projects", .arr [.obj [(.str "name", .str "a"), (.str "y", .num 5)]])])
        "projects" =
        .arr (A ++ mergeProjectObj
          (.obj [(.str "name", .str "a"), (.str "x", .num 1)])
          (.obj [(.str "name", .str "a"), (.str "y", .num 5)]) :: (B ++ C)) ∧
      A.length = ([] : List JVal).length ∧
      B.length = [JVal.obj [(.str "name", .str "a"), (.str "x", .num 2)]].length ∧
      (∀ i, i < [JVal.obj [(.str "name", .str "a"), (.str "x", .num 2)]].length →
        sameValueZero
          (getPropV ([JVal.obj [(.str "name", .str "a"), (.str "x", .num 2)]].getD i .undefined)
            "name") (.str "a") = true →
        B.getD i .undefined =
          [JVal.obj [(.str "name", .str "a"), (.str "x", .num 2)]].getD i .undefined) ∧
      (∀ c ∈ C, sameValueZero (getPropV c "name") (.str "a") = false)) :=
  ⟨rfl, rfl,
    mergeStep_earliest_duplicate_name_merged
      [(.str "projects", .arr
        [.obj [(.str "name", .str "a"), (.str "x", .num 1)],
         .obj [(.str "name", .str "a"), (.str "x", .num 2)]])]
      [(.str "projects", .arr [.obj [(.str "name", .str "a"), (.str "y", .num 5)]])]
      [] [.obj [(.str "name", .str "a"), (.str "x", .num 2)]]
      (.obj [(.str "name", .str "a"), (.str "x", .num 1)])
      (.obj [(.str "name", .str "a"), (.str "y", .num 5)])
      (.str "a")
      [.obj [(.str "name", .str "a"), (.str "y", .num 5)]]
      rfl rfl rfl (by simp) rfl rfl⟩

/-! ## Claim C1: project override-merge, refined against the spec -/

/-- The override map as a plain association of each project's name to the
project. -/
def mapOf (l : List JVal) : List (JVal × JVal) :=
  l.map (fun o => (getPropV o "name", o))

theorem mapGet_mapOf (l : List JVal) (n : JVal) :
    mapGet (mapOf l) n = l.find? (fun o => sameValueZero (getPropV o "name") n) := by
  induction l with
  | nil => rfl
  | cons o rest ih =>
    by_cases h : sameValueZero (getPropV o "name") n = true
    · simp [mapOf, mapGet, List.find?_cons, h]
    · simp only [Bool.not_eq_true] at h
      simp only [mapOf, List.map_cons, mapGet, h, Bool.false_eq_true, if_false,
        List.find?_cons, Bool.false_eq_true]
      exact ih

theorem mapSet_append_of_not_found (m : List (JVal × JVal)) (k v : JVal)
    (h : ∀ e ∈ m, sameValueZero e.1 k = false) :
    mapSet m k v = m ++ [(k, v)] := by
  induction m with
  | nil => rfl
  | cons e rest ih =>
    have he : sameValueZero e.1 k = false := h e (by simp)
    simp only [mapSet, he, Bool.false_eq_true, if_false, List.cons_append,
      List.cons.injEq, true_and]
    exact ih (fun f hf => h f (by simp [hf]))

theorem buildOverrides_eq_mapOf (l : List JVal)
    (hl : l.Pairwise (fun o o' =>
      sameValueZero (getPropV o "name") (getPropV o' "name") = false)) :
    buildOverrides l = mapOf l := by
  have aux : ∀ (rest accl : List JVal),
      (accl ++ rest).Pairwise (fun o o' =>
        sameValueZero (getPropV o "name") (getPropV o' "name") = false) →
      rest.foldl (fun m q => mapSet m (getPropV q "name") q) (mapOf accl) =
        mapOf (accl ++ rest) := by
    intro rest
    induction rest with
    | nil => intro accl _; simp
    | cons q rest ih =>
      intro accl h
      have hstep : mapSet (mapOf accl) (getPropV q "name") q =
          mapOf (accl ++ [q]) := by
        rw [mapSet_append_of_not_found]
        · simp [mapOf]
        · intro e he
          simp only [mapOf, List.mem_map] at he
          obtain ⟨x, hx, hex⟩ := he
          have := (List.pairwise_append.1 h).2.2 x hx q (by simp)
          subst hex
          simpa using this
      have h' : ((accl ++ [q]) ++ rest).Pairwise (fun o o' =>
          sameValueZero (getPropV o "name") (getPropV o' "name") = false) := by
        simpa using h
      calc (q :: rest).foldl (fun m r => mapSet m (getPropV r "name") r) (mapOf accl)
          = rest.foldl (fun m r => mapSet m (getPropV r "name") r)
              (mapOf (accl ++ [q])) := by rw [List.foldl_cons, hstep]
        _ = mapOf ((accl ++ [q]) ++ rest) := ih (accl ++ [q]) h'
        _ = mapOf (accl ++ q :: rest) := by simp
  simpa using aux l [] (by simpa using hl)

theorem mapDelete_mapOf (l : List JVal) (n : JVal)
    (hl : l.Pairwise (fun o o' =>
      sameValueZero (getPropV o "name") (getPropV o' "name") = false)) :
    mapDelete (mapOf l) n =
      mapOf (l.filter (fun o => ! sameValueZero (getPropV o "name") n)) := by
  induction l with
  | nil => rfl
  | cons o rest ih =>
    obtain ⟨hhead, htail⟩ := List.pairwise_cons.1 hl
    by_cases h : sameValueZero (getPropV o "name") n = true
    · have hkeep : rest.filter (fun o' => ! sameValueZero (getPropV o' "name") n) = rest := by
        rw [List.filter_eq_self]
        intro r hr
        by_cases hr1 : sameValueZero (getPropV r "name") n = true
        · exfalso
          have h1 : sameValueZero (getPropV o "name") (getPropV r "name") = true :=
            sameValueZero_trans _ n _ h (by rw [sameValueZero_symm]; exact hr1)
          have := hhead r hr
          simp [h1] at this
        · simpa using hr1
      simp [mapOf, mapDelete, h, List.filter_cons, hkeep]
    · simp only [Bool.not_eq_true] at h
      simp only [mapOf, List.map_cons, mapDelete, h, Bool.false_eq_true, if_false,
        List.filter_cons, Bool.not_false, if_true, List.cons.injEq, true_and]
      exact ih htail

theorem find?_filter_eq (l : List JVal) (px keep : JVal → Bool)
    (h : ∀ x ∈ l, px x = true → keep x = true) :
    (l.filter keep).find? px = l.find? px := by
  induction l with
  | nil => rfl
  | cons x rest ih =>
    have ih' := ih (fun y hy => h y (by simp [hy]))
    by_cases hk : keep x = true
    · by_cases hp : px x = true
      · simp [List.filter_cons, hk, List.find?_cons, hp]
      · simp only [Bool.not_eq_true] at hp
        simp [List.filter_cons, hk, List.find?_cons, hp, ih']
    · have hp : px x = false := by
        by_cases hp1 : px x = true
        · exact absurd (h x (by simp) hp1) hk
        · simpa using hp1
      simp only [Bool.not_eq_true] at hk
      simp [List.filter_cons, hk, List.find?_cons, hp, ih']

end PW

namespace PW

theorem filter_filter_bool (l : List JVal) (f g : JVal → Bool) :
    (l.filter f).filter g = l.filter (fun a => f a && g a) := by
  induction l with
  | nil => rfl
  | cons x rest ih =>
    by_cases hf : f x = true
    · by_cases hg : g x = true
      · simp [List.filter_cons, hf, hg, ih]
      · simp only [Bool.not_eq_true] at hg
        simp [List.filter_cons, hf, hg, ih]
    · simp only [Bool.not_eq_true] at hf
      simp [List.filter_cons, hf, ih]

/-- Refinement of the override-merge loop against the spec's description
(§3): when base and override names are pairwise distinct and overrides
are truthy, the loop maps each base project to its override-merged image
(match by name, else unchanged) and leaves exactly the unmatched
overrides, in order. -/
theorem mergeProjectsLoop_spec : ∀ (bs l : List JVal),
    bs.Pairwise (fun p q =>
      sameValueZero (getPropV p "name") (getPropV q "name") = false) →
    l.Pairwise (fun o o' =>
      sameValueZero (getPropV o "name") (getPropV o' "name") = false) →
    (∀ o ∈ l, truthy o = true) →
    mergeProjectsLoop bs (mapOf l) =
      (bs.map (fun p =>
        match l.find? (fun o => sameValueZero (getPropV o "name") (getPropV p "name")) with
        | some o => mergeProjectObj p o
        | none => p),
       mapOf (l.filter (fun o =>
         ! bs.any (fun p => sameValueZero (getPropV p "name") (getPropV o "name"))))) := by
  intro bs
  induction bs with
  | nil =>
    intro l _ _ _
    simp [mergeProjectsLoop]
  | cons p rest ih =>
    intro l hbs hl htr
    obtain ⟨hphead, hptail⟩ := List.pairwise_cons.1 hbs
    cases hfind : l.find? (fun o =>
        sameValueZero (getPropV o "name") (getPropV p "name")) with
    | some o =>
      have ho_tr : truthy o = true := htr o (List.mem_of_find?_eq_some hfind)
      have hget : mapGet (mapOf l) (getPropV p "name") = some o := by
        rw [mapGet_mapOf]
        exact hfind
      have hdel : mapDelete (mapOf l) (getPropV p "name") =
          mapOf (l.filter (fun o =>
            ! sameValueZero (getPropV o "name") (getPropV p "name"))) :=
        mapDelete_mapOf l _ hl
      have hl'pw := List.Pairwise.sublist
        (List.filter_sublist (p := fun o =>
          ! sameValueZero (getPropV o "name") (getPropV p "name")) l) hl
      have htr' : ∀ o' ∈ l.filter (fun o =>
          ! sameValueZero (getPropV o "name") (getPropV p "name")), truthy o' = true :=
        fun o' ho' => htr o' (List.mem_of_mem_filter ho')
      have ihl := ih (l.filter (fun o =>
        ! sameValueZero (getPropV o "name") (getPropV p "name"))) hptail hl'pw htr'
      simp only [mergeProjectsLoop, hget, ho_tr, if_true, hdel, ihl]
      have hfst : ∀ q ∈ rest,
          (l.filter (fun o =>
            ! sameValueZero (getPropV o "name") (getPropV p "name"))).find?
              (fun o => sameValueZero (getPropV o "name") (getPropV q "name")) =
          l.find? (fun o => sameValueZero (getPropV o "name") (getPropV q "name")) := by
        intro q hq
        refine find?_filter_eq l _ _ ?_
        intro x hx hpx
        by_cases hxp : sameValueZero (getPropV x "name") (getPropV p "name") = true
        · exfalso
          have h1 : sameValueZero (getPropV p "name") (getPropV q "name") = true :=
            sameValueZero_trans _ _ _ (by rw [sameValueZero_symm]; exact hxp) hpx
          have := hphead q hq
          simp [h1] at this
        · simp only [Bool.not_eq_true] at hxp
          simp [hxp]
      have hsnd : (l.filter (fun o =>
            ! sameValueZero (getPropV o "name") (getPropV p "name"))).filter
              (fun o => ! rest.any (fun p' =>
                sameValueZero (getPropV p' "name") (getPropV o "name"))) =
          l.filter (fun o => ! (p :: rest).any (fun p' =>
            sameValueZero (getPropV p' "name") (getPropV o "name"))) := by
        rw [filter_filter_bool]
        congr 1
        funext o
        rw [List.any_cons, Bool.not_or,
          sameValueZero_symm (getPropV p "name") (getPropV o "name")]
      simp only [Prod.mk.injEq]
      constructor
      · rw [List.map_cons, hfind]
        rw [List.map_congr_left (fun q hq => by rw [hfst q hq])]
      · rw [hsnd]
    | none =>
      have hget : mapGet (mapOf l) (getPropV p "name") = none := by
        rw [mapGet_mapOf]
        exact hfind
      have hnone : ∀ o ∈ l,
          sameValueZero (getPropV o "name") (getPropV p "name") = false := by
        intro o ho
        have := List.find?_eq_none.1 hfind o ho
        simpa using this
      have ihl := ih l hptail hl htr
      simp only [mergeProjectsLoop, hget, ihl]
      simp only [Prod.mk.injEq]
      constructor
      · rw [List.map_cons, hfind]
      · congr 1
        apply List.filter_congr
        intro o ho
        rw [List.any_cons, Bool.not_or,
          sameValueZero_symm (getPropV p "name") (getPropV o "name"), hnone o ho]
        simp
  
end PW

namespace PW

/-- The spec's override-merge of a base project list with an override
project list (§3): each base project is matched against the overrides by
name; a match yields the merged project (base keys overwritten by
override keys, `use` shallow-merged); overrides matching no base project
are appended after all base projects, in their own order. -/
def projectsMergeSpec (base ovs : List JVal) : List JVal :=
  base.map (fun p =>
    match ovs.find? (fun o => sameValueZero (getPropV o "name") (getPropV p "name")) with
    | some o => mergeProjectObj p o
    | none => p) ++
  ovs.filter (fun o =>
    ! base.any (fun p => sameValueZero (getPropV p "name") (getPropV o "name")))

theorem mapValues_mapOf (l : List JVal) : mapValues (mapOf l) = l := by
  induction l with
  | nil => rfl
  | cons o rest ih => simp [mapValues, mapOf] at ih ⊢; exact ih

/-- C1: every merge fold step with pairwise-distinctly-named base and
override projects (overrides truthy, i.e. real project objects) performs
exactly the spec's override-merge: base projects matched by exact `name`
equality are override-merged (`use` shallow-merged, other keys
overwritten), unmatched base projects pass through, unmatched overrides
are appended after all base projects in override order.  In particular
base `[{name:"a",use:{x:1}}]` with override `[{name:"a",use:{x:2,y:3}}]`
gives exactly one project `{name:"a",use:{x:2,y:3}}`, and an override
named `"b"` absent from base is appended, not substituted. -/
theorem mergeStep_projects_override_by_name :
    (∀ (a b : Obj) (bs os : List JVal),
      getProp a "projects" = .arr bs →
      getProp b "projects" = .arr os →
      bs.Pairwise (fun p q =>
        sameValueZero (getPropV p "name") (getPropV q "name") = false) →
      os.Pairwise (fun o o' =>
        sameValueZero (getPropV o "name") (getPropV o' "name") = false) →
      (∀ o ∈ os, truthy o = true) →
      getProp (mergeStep a b) "projects" = .arr (projectsMergeSpec bs os)) ∧
    getProp (defineConfig
      [[(.str "projects", .arr
          [.obj [(.str "name", .str "a"), (.str "use", .obj [(.str "x", .num 1)])]])],
       [(.str "projects", .arr
          [.obj [(.str "name", .str "a"),
                 (.str "use", .obj [(.str "x", .num 2), (.str "y", .num 3)])]])]])
      "projects" =
      .arr [.obj [(.str "name", .str "a"),
                  (.str "use", .obj [(.str "x", .num 2), (.str "y", .num 3)])]] ∧
    getProp (defineConfig
      [[(.str "projects", .arr
          [.obj [(.str "name", .str "a"), (.str "use", .obj [(.str "x", .num 1)])]])],
       [(.str "projects", .arr [.obj [(.str "name", .str "b")]])]])
      "projects" =
      .arr [.obj [(.str "name", .str "a"), (.str "use", .obj [(.str "x", .num 1)])],
            .obj [(.str "name", .str "b")]] := by
  refine ⟨?_, rfl, rfl⟩
  intro a b bs os ha hb hbs hos htr
  have hbt : truthy (getProp b "projects") = true := by rw [hb]; rfl
  rw [getProp_mergeStep_projects_of_truthy a b hbt, ha, hb]
  simp only [jsIter]
  rw [buildOverrides_eq_mapOf os hos, mergeProjectsLoop_spec bs os hbs hos htr]
  rw [projectsMergeSpec, mapValues_mapOf]

/-- Witness for C1 at the claim's first example. -/
theorem mergeStep_projects_override_by_name_witness :
    (getProp [(JKey.str "projects", JVal.arr
        [.obj [(.str "name", .str "a"), (.str "use", .obj [(.str "x", .num 1)])]])]
      "projects" = .arr
        [.obj [(.str "name", .str "a"), (.str "use", .obj [(.str "x", .num 1)])]]) ∧
    (∀ o ∈ [JVal.obj [(.str "name", .str "a"),
        (.str "use", .obj [(.str "x", .num 2), (.str "y", .num 3)])]],
      truthy o = true) ∧
    getProp (mergeStep
      [(.str "projects", .arr
        [.obj [(.str "name", .str "a"), (.str "use", .obj [(.str "x", .num 1)])]])]
      [(.str "projects", .arr
        [.obj [(.str "name", .str "a"),
               (.str "use", .obj [(.str "x", .num 2), (.str "y", .num 3)])]])])
      "projects" =
      .arr (projectsMergeSpec
        [.obj [(.str "name", .str "a"), (.str "use", .obj [(.str "x", .num 1)])]]
        [.obj [(.str "name", .str "a"),
               (.str "use", .obj [(.str "x", .num 2), (.str "y", .num 3)])]]) :=
  ⟨rfl, by simp [truthy],
    mergeStep_projects_override_by_name.1
      [(.str "projects", .arr
        [.obj [(.str "name", .str "a"), (.str "use", .obj [(.str "x", .num 1)])]])]
      [(.str "projects", .arr
        [.obj [(.str "name", .str "a"),
               (.str "use", .obj [(.str "x", .num 2), (.str "y", .num 3)])]])]
      [.obj [(.str "name", .str "a"), (.str "use", .obj [(.str "x", .num 1)])]]
      [.obj [(.str "name", .str "a"),
             (.str "use", .obj [(.str "x", .num 2), (.str "y", .num 3)])]]
      rfl rfl (by simp) (by simp) (by simp [truthy])⟩

end PW

namespace PW

/-! ## Claim C9: single-fragment call and the merge-was-used sentinel -/

/-- C9: `defineConfig` with exactly one fragment returns it unchanged on
every string key, adds the merge-was-used sentinel, and the canonical
configuration's flag (configLoader.ts line 123) is true for the result
and false for any config not carrying the sentinel. -/
theorem defineConfig_single_fragment :
    ∀ c : Obj,
      (∀ s : String, lookupKey (defineConfig [c]) (.str s) = lookupKey c (.str s)) ∧
      defineConfigWasUsedFlag (defineConfig [c]) = true ∧
      (∀ u : Obj, lookupKey u .defineConfigSym = none →
        defineConfigWasUsedFlag u = false) := by
  intro c
  refine ⟨?_, ?_, ?_⟩
  · intro s
    show lookupKey (setKey c .defineConfigSym (.bool true)) (.str s) = _
    exact lookupKey_setKey_ne c _ _ _ (by simp)
  · show defineConfigWasUsedFlag (setKey c .defineConfigSym (.bool true)) = true
    simp [defineConfigWasUsedFlag, lookupKey_setKey_self, truthy]
  · intro u hu
    simp [defineConfigWasUsedFlag, hu, truthy]

/-- Witness for C9 on the fragment `{a:1}` and the sentinel-free `{}`. -/
theorem defineConfig_single_fragment_witness :
    lookupKey ([] : Obj) JKey.defineConfigSym = none ∧
    lookupKey (defineConfig [[(JKey.str "a", JVal.num 1)]]) (.str "a") =
      lookupKey [(JKey.str "a", JVal.num 1)] (.str "a") ∧
    defineConfigWasUsedFlag (defineConfig [[(JKey.str "a", JVal.num 1)]]) = true ∧
    defineConfigWasUsedFlag [] = false :=
  ⟨rfl, (defineConfig_single_fragment [(JKey.str "a", JVal.num 1)]).1 "a",
    (defineConfig_single_fragment [(JKey.str "a", JVal.num 1)]).2.1,
    (defineConfig_single_fragment [(JKey.str "a", JVal.num 1)]).2.2 [] rfl⟩

/-! ## Claim C6: merging disjoint fragments -/

/-- C6 as stated is false on the code: merging the disjoint fragments
`{foo:1}` and `{bar:2}` produces an object whose `expect` key is present
(value `\x7b\x7d`) even though neither fragment has that key — the merge
always materializes `expect`, `use`, `build` and `webServer`. -/
theorem defineConfig_disjoint_union_counterexample :
    lookupKey (defineConfig [[(.str "foo", .num 1)], [(.str "bar", .num 2)]])
      (.str "expect") = some (.obj []) ∧
    lookupKey [(JKey.str "foo", JVal.num 1)] (.str "expect") = none ∧
    lookupKey [(JKey.str "bar", JVal.num 2)] (.str "expect") = none :=
  ⟨rfl, rfl, rfl⟩

end PW

namespace PW

/-- The string-keyed entries of an object, in order — what `Object.keys`
and JSON-level observation see (symbol entries are invisible there). -/
def stringEntries (o : Obj) : List (String × JVal) :=
  o.filterMap (fun kv =>
    match kv.1 with
    | .str s => some (s, kv.2)
    | .defineConfigSym => none)

/-- `setKey` on string-keyed association lists. -/
def setKeyStr : List (String × JVal) → String → JVal → List (String × JVal)
  | [], s, v => [(s, v)]
  | (s', v') :: rest, s, v =>
    if s' = s then (s, v) :: rest else (s', v') :: setKeyStr rest s v

/-- `lookupKey` on string-keyed association lists. -/
def lookupStr : List (String × JVal) → String → Option JVal
  | [], _ => none
  | (s', v) :: rest, s => if s' = s then some v else lookupStr rest s

/-- A user-authored fragment: no symbol keys. -/
def userObj (o : Obj) : Prop := ∀ kv ∈ o, kv.1 ≠ JKey.defineConfigSym

theorem stringEntries_setKey_str (o : Obj) (s : String) (v : JVal) :
    stringEntries (setKey o (.str s) v) = setKeyStr (stringEntries o) s v := by
  induction o with
  | nil => rfl
  | cons kv rest ih =>
    obtain ⟨k0, v0⟩ := kv
    cases k0 with
    | str s' =>
      by_cases h : s' = s
      · simp [setKey, stringEntries, h, setKeyStr]
      · simp [setKey, stringEntries, h, setKeyStr]
        exact ih
    | defineConfigSym =>
      simp [setKey, stringEntries, setKeyStr]
      exact ih

theorem stringEntries_setKey_sym (o : Obj) (v : JVal) :
    stringEntries (setKey o .defineConfigSym v) = stringEntries o := by
  induction o with
  | nil => rfl
  | cons kv rest ih =>
    obtain ⟨k0, v0⟩ := kv
    cases k0 with
    | str s' =>
      simp [setKey, stringEntries]
      exact ih
    | defineConfigSym => simp [setKey, stringEntries]

theorem getProp_eq_lookupStr (o : Obj) (s : String) :
    getProp o s = (lookupStr (stringEntries o) s).getD .undefined := by
  induction o with
  | nil => rfl
  | cons kv rest ih =>
    obtain ⟨k0, v0⟩ := kv
    cases k0 with
    | str s' =>
      by_cases h : s' = s
      · simp [getProp, lookupKey, stringEntries, lookupStr, h]
      · simp only [getProp, lookupKey] at ih
        simp [getProp, lookupKey, stringEntries, lookupStr, h, ih]
    | defineConfigSym =>
      simp only [getProp, lookupKey] at ih
      simp [getProp, lookupKey, stringEntries, ih]

theorem getProp_congr_of_stringEntries (x y : Obj)
    (h : stringEntries x = stringEntries y) (s : String) :
    getProp x s = getProp y s := by
  rw [getProp_eq_lookupStr, getProp_eq_lookupStr, h]

/-- Spread on string-keyed association lists. -/
def spreadStr (base more : List (String × JVal)) : List (String × JVal) :=
  more.foldl (fun acc kv => setKeyStr acc kv.1 kv.2) base

theorem stringEntries_spreadFields (base more : Obj) (h : userObj more) :
    stringEntries (spreadFields base more) =
      spreadStr (stringEntries base) (stringEntries more) := by
  induction more generalizing base with
  | nil => rfl
  | cons kv rest ih =>
    obtain ⟨k0, v0⟩ := kv
    cases k0 with
    | str s =>
      have hstep : spreadFields base ((JKey.str s, v0) :: rest) =
          spreadFields (setKey base (.str s) v0) rest := by
        simp [spreadFields]
      rw [hstep, ih _ (fun kv hkv => h kv (by simp [hkv])), stringEntries_setKey_str]
      rw [show stringEntries ((JKey.str s, v0) :: rest) = (s, v0) :: stringEntries rest
        from rfl]
      rfl
    | defineConfigSym =>
      exact absurd rfl (h (.defineConfigSym, v0) (by simp))

theorem stringEntries_append_sym (o : Obj) (v : JVal) :
    stringEntries (o ++ [(JKey.defineConfigSym, v)]) = stringEntries o := by
  unfold stringEntries
  rw [List.filterMap_append]
  simp

theorem getProp_append_sym (o : Obj) (v : JVal) (s : String) :
    getProp (o ++ [(JKey.defineConfigSym, v)]) s = getProp o s :=
  getProp_congr_of_stringEntries _ _ (stringEntries_append_sym o v) s

/-- Congruence: fold steps whose left inputs agree on every string key
(and as string-entry lists) produce results with the same string
entries. -/
theorem stringEntries_mergeStep_congr (a a' b : Obj)
    (hgp : ∀ s, getProp a' s = getProp a s)
    (hse : stringEntries a' = stringEntries a)
    (hb : userObj b) :
    stringEntries (mergeStep a' b) = stringEntries (mergeStep a b) := by
  have hbase : stringEntries (mergeBase a' b) = stringEntries (mergeBase a b) := by
    simp only [mergeBase]
    rw [stringEntries_setKey_str, stringEntries_setKey_str, stringEntries_setKey_str,
      stringEntries_setKey_str, stringEntries_setKey_str, stringEntries_setKey_str,
      stringEntries_setKey_str, stringEntries_setKey_str,
      stringEntries_spreadFields a' b hb, stringEntries_spreadFields a b hb,
      hse, hgp "expect", hgp "use", hgp "build", hgp "webServer"]
  have hPc : getProp (mergeBase a' b) "projects" = getProp (mergeBase a b) "projects" :=
    getProp_congr_of_stringEntries _ _ hbase "projects"
  simp only [mergeStep, hPc, hgp "projects"]
  split
  · exact hbase
  · rw [stringEntries_setKey_str, stringEntries_setKey_str, hbase]

end PW

namespace PW

theorem lookupKey_mergeBase_other (a b : Obj) (s : String)
    (h1 : s ≠ "expect") (h2 : s ≠ "use") (h3 : s ≠ "build") (h4 : s ≠ "webServer") :
    lookupKey (mergeBase a b) (.str s) = lookupKey (spreadFields a b) (.str s) := by
  simp only [mergeBase]
  rw [lookupKey_setKey_ne _ _ _ _ (by simp [h4]), lookupKey_setKey_ne _ _ _ _ (by simp [h3]),
    lookupKey_setKey_ne _ _ _ _ (by simp [h2]), lookupKey_setKey_ne _ _ _ _ (by simp [h1])]

theorem lookupKey_mergeStep_ne_projects (a b : Obj) (s : String) (h : s ≠ "projects") :
    lookupKey (mergeStep a b) (.str s) = lookupKey (mergeBase a b) (.str s) := by
  simp only [mergeStep]
  split
  · rfl
  · exact lookupKey_setKey_ne _ _ _ _ (by simp [h])

/-- C6, amended: for fragments with well-formed override keys, merging
`[a, b]` assigns every key outside the always-materialized set
`expect`/`use`/`build`/`webServer`/`projects` the override's value when
`b` has the key and `a`'s value otherwise (on disjoint keys: exactly the
union, and `none` when neither has it); the four materialized keys are
always present in the result (this is the part the original claim
missed); and for user-authored fragments the one-call merge and the
nested `defineConfig(defineConfig(a), b)` composition agree on all
string entries, both carrying the merge-was-used sentinel. -/
theorem defineConfig_disjoint_union_amended :
    (∀ (a b : Obj) (s : String),
      (objKeys b).Nodup →
      s ∉ (["expect", "use", "build", "webServer", "projects"] : List String) →
      lookupKey (defineConfig [a, b]) (.str s) =
        firstSome (lookupKey b (.str s)) (lookupKey a (.str s))) ∧
    (∀ (a b : Obj) (sub : String),
      sub ∈ (["expect", "use", "build", "webServer"] : List String) →
      (lookupKey (defineConfig [a, b]) (.str sub)).isSome = true) ∧
    (∀ a b : Obj, userObj a → userObj b →
      stringEntries (defineConfig [a, b]) =
        stringEntries (defineConfig [defineConfig [a], b]) ∧
      defineConfigWasUsedFlag (defineConfig [a, b]) = true ∧
      defineConfigWasUsedFlag (defineConfig [defineConfig [a], b]) = true) := by
  refine ⟨?_, ?_, ?_⟩
  · intro a b s hb hs
    simp only [List.mem_cons, List.mem_singleton] at hs
    push_neg at hs
    obtain ⟨he, hu, hbl, hw, hp⟩ := hs
    rw [show defineConfig [a, b] = setKey (mergeStep a b) .defineConfigSym (.bool true)
      from rfl]
    rw [lookupKey_setKey_ne _ _ _ _ (by simp), lookupKey_mergeStep_ne_projects a b s hp.1,
      lookupKey_mergeBase_other a b s he hu hbl hw, lookupKey_spreadFields b a _ hb]
  · intro a b sub hsub
    rw [show defineConfig [a, b] = setKey (mergeStep a b) .defineConfigSym (.bool true)
      from rfl]
    rw [lookupKey_setKey_ne _ _ _ _ (by simp)]
    simp only [List.mem_cons, List.mem_singleton] at hsub
    rcases hsub with h | h | h | h | h
    · subst h
      rw [lookupKey_mergeStep_ne_projects a b _ (by decide)]
      simp only [mergeBase]
      rw [lookupKey_setKey_ne _ _ _ _ (by decide), lookupKey_setKey_ne _ _ _ _ (by decide),
        lookupKey_setKey_ne _ _ _ _ (by decide), lookupKey_setKey_self]
      rfl
    · subst h
      rw [lookupKey_mergeStep_ne_projects a b _ (by decide)]
      simp only [mergeBase]
      rw [lookupKey_setKey_ne _ _ _ _ (by decide), lookupKey_setKey_ne _ _ _ _ (by decide),
        lookupKey_setKey_self]
      rfl
    · subst h
      rw [lookupKey_mergeStep_ne_projects a b _ (by decide)]
      simp only [mergeBase]
      rw [lookupKey_setKey_ne _ _ _ _ (by decide), lookupKey_setKey_self]
      rfl
    · subst h
      rw [lookupKey_mergeStep_ne_projects a b _ (by decide)]
      simp only [mergeBase]
      rw [lookupKey_setKey_self]
      rfl
    · cases h
  · intro a b ha hb
    have hsym : JKey.defineConfigSym ∉ objKeys a := by
      intro hmem
      simp only [objKeys, List.mem_map] at hmem
      obtain ⟨kv, hkv, hk⟩ := hmem
      exact ha kv hkv hk
    have ha1 : defineConfig [a] = a ++ [(JKey.defineConfigSym, JVal.bool true)] := by
      show setKey a .defineConfigSym (.bool true) = _
      exact setKey_eq_append_of_not_mem a _ _ hsym
    refine ⟨?_, ?_, ?_⟩
    · show stringEntries (setKey (mergeStep a b) .defineConfigSym (.bool true)) =
        stringEntries (setKey (mergeStep (defineConfig [a]) b) .defineConfigSym (.bool true))
      rw [stringEntries_setKey_sym, stringEntries_setKey_sym, ha1]
      exact (stringEntries_mergeStep_congr a (a ++ [(.defineConfigSym, .bool true)]) b
        (getProp_append_sym a _) (stringEntries_append_sym a _) hb).symm
    · show defineConfigWasUsedFlag (setKey (mergeStep a b) .defineConfigSym (.bool true)) = true
      simp [defineConfigWasUsedFlag, lookupKey_setKey_self, truthy]
    · show defineConfigWasUsedFlag
        (setKey (mergeStep (defineConfig [a]) b) .defineConfigSym (.bool true)) = true
      simp [defineConfigWasUsedFlag, lookupKey_setKey_self, truthy]

/-- Witness for the amended C6 on the disjoint fragments `{foo:1}` and
`{bar:2}`. -/
theorem defineConfig_disjoint_union_amended_witness :
    (objKeys [(JKey.str "bar", JVal.num 2)]).Nodup ∧
    lookupKey (defineConfig [[(.str "foo", .num 1)], [(.str "bar", .num 2)]]) (.str "foo") =
      firstSome (lookupKey [(JKey.str "bar", JVal.num 2)] (.str "foo"))
        (lookupKey [(JKey.str "foo", JVal.num 1)] (.str "foo")) ∧
    (lookupKey (defineConfig [[(.str "foo", .num 1)], [(.str "bar", .num 2)]])
      (.str "expect")).isSome = true ∧
    stringEntries (defineConfig [[(.str "foo", .num 1)], [(.str "bar", .num 2)]]) =
      stringEntries (defineConfig [defineConfig [[(.str "foo", .num 1)]],
        [(.str "bar", .num 2)]]) :=
  ⟨by decide,
    defineConfig_disjoint_union_amended.1
      [(.str "foo", .num 1)] [(.str "bar", .num 2)] "foo" (by decide) (by decide),
    defineConfig_disjoint_union_amended.2.1
      [(.str "foo", .num 1)] [(.str "bar", .num 2)] "expect" (by decide),
    (defineConfig_disjoint_union_amended.2.2
      [(.str "foo", .num 1)] [(.str "bar", .num 2)]
      (by simp [userObj]) (by simp [userObj])).1⟩

end PW

namespace PW

/-! ## Claim C3: received value for wrong-value / out-of-range issues -/

/-- C3 fails on the code: for the out-of-range violation at the nested
path `launchOptions.timeout` inside `use`, the `too_small` branch
(configLoader.ts line 278) computes the received value as
`use[path.join('.')]` — indexing by the single joined key
`"launchOptions.timeout"`, which is absent — so the diagnostic says
`Received: undefined`, although the value actually found at that path is
`-5` (the `invalid_type` branch, by contrast, walks the path).  The
first conjunct evaluates the translated code at the failing input; the
second gives the value a path walk actually finds; the third pins the
issue the schema produces. -/
theorem validateTestOptions_nested_bound_received_value :
    validateTestOptions "playwright.config.ts"
      (.obj [(.str "launchOptions", .obj [(.str "timeout", .num (-5))])]) "config.use" =
      .error ⟨"playwright.config.ts",
        "Configuration option \"config.use.launchOptions.timeout\" Too small: expected number to be >0\nReceived: undefined"⟩ ∧
    walkPath (.obj [(.str "launchOptions", .obj [(.str "timeout", .num (-5))])])
      ["launchOptions", "timeout"] = .num (-5) ∧
    firstIssue testOptionsSchema []
      (.obj [(.str "launchOptions", .obj [(.str "timeout", .num (-5))])]) =
      some { code := .too_small, path := ["launchOptions", "timeout"],
             message := "Too small: expected number to be >0" } :=
  ⟨rfl, rfl, rfl⟩

end PW

namespace PW

/-! ## Claim C2: fixed validation order, first violation wins -/

theorem validateTestOptions_error_of_issue (file : String) (u : JVal) (t : String)
    (issue : ZIssue) (h : firstIssue testOptionsSchema [] u = some issue) :
    ∃ e, validateTestOptions file u t = .error e := by
  unfold validateTestOptions
  rw [h]
  obtain ⟨c, p, m⟩ := issue
  cases c
  · exact ⟨_, rfl⟩
  · exact ⟨_, rfl⟩
  · exact ⟨_, rfl⟩
  · exact ⟨_, rfl⟩
  · exact ⟨_, rfl⟩

theorem validateProjectsList_first_error (file : String) (e : VError) :
    ∀ (ps : List JVal) (k i : Nat),
      i < ps.length →
      (∀ j, j < i → validateProject file (ps.getD j .undefined)
        ("config.projects[" ++ toString (k + j) ++ "]") = .ok ()) →
      validateProject file (ps.getD i .undefined)
        ("config.projects[" ++ toString (k + i) ++ "]") = .error e →
      validateProjectsList file k ps = .error e := by
  intro ps
  induction ps with
  | nil =>
    intro k i hi
    simp at hi
  | cons p rest ih =>
    intro k i hi hok herr
    cases i with
    | zero =>
      simp only [List.getD_cons_zero, Nat.add_zero] at herr
      simp only [validateProjectsList]
      rw [herr]
      rfl
    | succ j' =>
      have h0 : validateProject file p ("config.projects[" ++ toString k ++ "]") = .ok () := by
        have := hok 0 (Nat.succ_pos j')
        simpa using this
      simp only [validateProjectsList]
      rw [h0]
      show validateProjectsList file (k + 1) rest = .error e
      refine ih (k + 1) j' (by simpa using hi) ?_ ?_
      · intro j hj
        have := hok (j + 1) (by omega)
        rw [show k + (j + 1) = k + 1 + j by omega] at this
        simpa using this
      · rw [show k + (j' + 1) = k + 1 + j' by omega] at herr
        simpa using herr

end PW

namespace PW

@[simp] theorem except_throw_eq_error (e : VError) :
    (throw e : Except VError Unit) = Except.error e := rfl

@[simp] theorem except_bind_error (e : VError) (k : Unit → Except VError Unit) :
    (Except.error e >>= k : Except VError Unit) = Except.error e := rfl

@[simp] theorem except_bind_ok (k : Unit → Except VError Unit) :
    (Except.ok () >>= k : Except VError Unit) = k () := rfl

@[simp] theorem except_pure_eq_ok : (pure () : Except VError Unit) = Except.ok () := rfl

set_option maxRecDepth 8000

/-- C2: validation runs in a fixed order — object check, then the
top-level schema, then the config's own checks (including `config.use`),
then `config.projects` in index order — and the first violation in this
order is the one reported; later checks are never evaluated.  Conjuncts:
(1) a top-level schema issue is reported unconditionally, whatever
`use`/`projects` contain; (2) a failure of the config's own project-shaped
checks is reported whatever `projects` contains; (3) when the config's
`testIgnore`/`testMatch` pass and `config.use` has a schema issue, the
verdict is exactly the `config.use` diagnostic, an error, whatever
`projects` contains; (4) with everything earlier passing, the first
failing project in index order is reported; (5) the claim's concrete
example: `fullyParallel:"yes"` plus `globalTimeout:-1` reports only the
`fullyParallel` diagnostic. -/
theorem validateConfig_fixed_order :
    (∀ (fs : String → Bool) (file : String) (config : JVal) (issue : ZIssue),
      jsTypeofIsObject config = true → truthy config = true →
      firstIssue testConfigSchema [] config = some issue →
      validateConfig fs file config = .error (renderConfigIssue file config issue)) ∧
    (∀ (fs : String → Bool) (file : String) (config : JVal) (e : VError),
      jsTypeofIsObject config = true → truthy config = true →
      firstIssue testConfigSchema [] config = none →
      validateProject file config "config" = .error e →
      validateConfig fs file config = .error e) ∧
    (∀ (fs : String → Bool) (file : String) (config : JVal) (issue : ZIssue),
      jsTypeofIsObject config = true → truthy config = true →
      firstIssue testConfigSchema [] config = none →
      validateMatchProp file config "config" "testIgnore" = .ok () →
      validateMatchProp file config "config" "testMatch" = .ok () →
      keyIn config "use" = true →
      isUndefined (getPropV config "use") = false →
      truthy (getPropV config "use") = true →
      jsTypeofIsObject (getPropV config "use") = true →
      firstIssue testOptionsSchema [] (getPropV config "use") = some issue →
      validateConfig fs file config =
        validateTestOptions file (getPropV config "use") "config.use" ∧
      ∃ e, validateConfig fs file config = .error e) ∧
    (∀ (fs : String → Bool) (file : String) (config : JVal) (ps : List JVal)
        (i : Nat) (e : VError),
      jsTypeofIsObject config = true → truthy config = true →
      firstIssue testConfigSchema [] config = none →
      validateProject file config "config" = .ok () →
      (isUndefined (getPropV config "use") = true ∨
        validateTestOptions file (getPropV config "use") "config.use" = .ok ()) →
      jsProjects config = ps →
      i < ps.length →
      (∀ j, j < i → validateProject file (ps.getD j .undefined)
        ("config.projects[" ++ toString j ++ "]") = .ok ()) →
      validateProject file (ps.getD i .undefined)
        ("config.projects[" ++ toString i ++ "]") = .error e →
      validateConfig fs file config = .error e) ∧
    validateConfig (fun _ => true) "playwright.config.ts"
      (.obj [(.str "fullyParallel", .str "yes"), (.str "globalTimeout", .num (-1))]) =
      .error ⟨"playwright.config.ts",
        "Configuration option \"fullyParallel\" expected boolean, received string\nReceived: \"yes\""⟩ := by
  refine ⟨?_, ?_, ?_, ?_, rfl⟩
  · intro fs file config issue hobj htr hfi
    unfold validateConfig
    simp [hobj, htr, hfi]
  · intro fs file config e hobj htr hfi hvp
    unfold validateConfig
    simp [hobj, htr, hfi, hvp]
  · intro fs file config issue hobj htr hfi hti htm hkey hundef htru hobju hiss
    obtain ⟨e, he⟩ := validateTestOptions_error_of_issue file _ "config.use" issue hiss
    have hvp : validateProject file config "config" = .error e := by
      unfold validateProject
      simp [hobj, htr, hti, htm, hkey, hundef, htru, hobju, he]
    refine ⟨?_, e, ?_⟩
    · rw [he]
      unfold validateConfig
      simp [hobj, htr, hfi, hvp]
    · unfold validateConfig
      simp [hobj, htr, hfi, hvp]
  · intro fs file config ps i e hobj htr hfi hvp huse hps hi hok herr
    have hplist : validateProjectsList file 0 ps = .error e := by
      refine validateProjectsList_first_error file e ps 0 i hi ?_ ?_
      · intro j hj
        simpa using hok j hj
      · simpa using herr
    unfold validateConfig
    rcases huse with hu | hu
    · simp [hobj, htr, hfi, hvp, hu, hps, hplist]
    · cases hu2 : isUndefined (getPropV config "use")
      · simp [hobj, htr, hfi, hvp, hu2, hu, hps, hplist]
      · simp [hobj, htr, hfi, hvp, hu2, hps, hplist]

end PW

namespace PW

/-- Witness for C2 at the claim's two-violation candidate. -/
theorem validateConfig_fixed_order_witness :
    jsTypeofIsObject (JVal.obj [(.str "fullyParallel", .str "yes"),
      (.str "globalTimeout", .num (-1))]) = true ∧
    firstIssue testConfigSchema []
      (.obj [(.str "fullyParallel", .str "yes"), (.str "globalTimeout", .num (-1))]) =
      some { code := .invalid_type, path := ["fullyParallel"],
             message := "Invalid input: expected boolean, received string" } ∧
    validateConfig (fun _ => true) "playwright.config.ts"
      (.obj [(.str "fullyParallel", .str "yes"), (.str "globalTimeout", .num (-1))]) =
      .error (renderConfigIssue "playwright.config.ts"
        (.obj [(.str "fullyParallel", .str "yes"), (.str "globalTimeout", .num (-1))])
        { code := .invalid_type, path := ["fullyParallel"],
          message := "Invalid input: expected boolean, received string" }) :=
  ⟨rfl, rfl,
    validateConfig_fixed_order.1 (fun _ => true) "playwright.config.ts"
      (.obj [(.str "fullyParallel", .str "yes"), (.str "globalTimeout", .num (-1))])
      { code := .invalid_type, path := ["fullyParallel"],
        message := "Invalid input: expected boolean, received string" }
      rfl rfl rfl⟩

end PW

namespace PW

/-! ## Claim C8: unknown-key tolerance -/

/-- Declared field names of an object schema. -/
def objFieldNames : ZSchema → List String
  | .objS fields => fields.map (·.1)
  | _ => []

theorem firstIssueFields_setKey_undeclared
    (fields : List (String × ZSchema × Bool)) (path : List String)
    (o : Obj) (k : String) (v : JVal) (h : ∀ f ∈ fields, f.1 ≠ k) :
    firstIssueFields fields path (setKey o (.str k) v) =
      firstIssueFields fields path o := by
  induction fields with
  | nil => rfl
  | cons f rest ih =>
    obtain ⟨name, sch, opt⟩ := f
    have hne : name ≠ k := h (name, sch, opt) (by simp)
    simp only [firstIssueFields, getProp_setKey_ne o k name v hne,
      ih (fun g hg => h g (by simp [hg]))]

theorem firstIssue_setKey_undeclared_of_objS (sch : ZSchema) (path : List String)
    (o : Obj) (k : String) (v : JVal) (fields : List (String × ZSchema × Bool))
    (hs : sch = .objS fields) (hk : k ∉ objFieldNames sch) :
    firstIssue sch path (.obj (setKey o (.str k) v)) = firstIssue sch path (.obj o) := by
  subst hs
  show firstIssueFields fields path (setKey o (.str k) v) = firstIssueFields fields path o
  refine firstIssueFields_setKey_undeclared fields path o k v ?_
  intro f hf hfk
  exact hk (by simp only [objFieldNames]; exact List.mem_map.2 ⟨f, hf, hfk⟩)

theorem keyIn_obj_setKey_ne (o : Obj) (k : String) (v : JVal) (s : String)
    (h : s ≠ k) : keyIn (.obj (setKey o (.str k) v)) s = keyIn (.obj o) s := by
  simp [keyIn, lookupKey_setKey_ne o (.str k) (.str s) v (by simp [h])]

theorem getPropV_obj_setKey_ne (o : Obj) (k : String) (v : JVal) (s : String)
    (h : s ≠ k) : getPropV (.obj (setKey o (.str k) v)) s = getPropV (.obj o) s := by
  simp [getPropV, getProp_setKey_ne o k s v h]

theorem validateMatchProp_setKey_ne (file : String) (o : Obj) (k : String) (v : JVal)
    (t prop : String) (h : prop ≠ k) :
    validateMatchProp file (.obj (setKey o (.str k) v)) t prop =
      validateMatchProp file (.obj o) t prop := by
  simp only [validateMatchProp, keyIn_obj_setKey_ne o k v prop h,
    getPropV_obj_setKey_ne o k v prop h]

theorem validateProject_setKey_undeclared (file : String) (o : Obj) (k : String)
    (v : JVal) (t : String) (h1 : "testIgnore" ≠ k) (h2 : "testMatch" ≠ k)
    (h3 : "use" ≠ k) :
    validateProject file (.obj (setKey o (.str k) v)) t =
      validateProject file (.obj o) t := by
  simp only [validateProject, validateMatchProp_setKey_ne file o k v t "testIgnore" h1,
    validateMatchProp_setKey_ne file o k v t "testMatch" h2,
    keyIn_obj_setKey_ne o k v "use" h3, getPropV_obj_setKey_ne o k v "use" h3,
    jsTypeofIsObject, truthy]

/-- C8: a key not declared in the corresponding schema does not affect
validation, and its value is preserved unchanged in the validated object
(the validator never transforms its input).  First conjunct: top level —
adding any undeclared key (also outside the specially-checked
`testIgnore`/`testMatch`/`use`/`projects`) to a successfully validating
config keeps validation succeeding with the key's value intact.  Second
conjunct: inside `use` — adding a key undeclared in `testOptionsSchema`
(an open `.loose()` schema) to a `use` object that parses cleanly keeps
`validateTestOptions` succeeding with the key's value intact. -/
theorem validateConfig_unknown_key_tolerance :
    (∀ (fs : String → Bool) (file : String) (o : Obj) (k : String) (v : JVal),
      k ∉ objFieldNames testConfigSchema →
      k ∉ (["testIgnore", "testMatch", "use", "projects"] : List String) →
      validateConfig fs file (.obj o) = .ok () →
      validateConfig fs file (.obj (setKey o (.str k) v)) = .ok () ∧
      lookupKey (setKey o (.str k) v) (.str k) = some v) ∧
    (∀ (file title : String) (u : Obj) (k : String) (v : JVal),
      k ∉ objFieldNames testOptionsSchema →
      firstIssue testOptionsSchema [] (.obj u) = none →
      validateTestOptions file (.obj (setKey u (.str k) v)) title = .ok () ∧
      lookupKey (setKey u (.str k) v) (.str k) = some v) := by
  constructor
  · intro fs file o k v hk1 hk2 hok
    simp only [List.mem_cons, List.mem_singleton] at hk2
    push_neg at hk2
    obtain ⟨hti, htm, hus, hpr, -⟩ := hk2
    have hts : k ≠ "tsconfig" := by
      intro hkk
      subst hkk
      exact hk1 (by decide)
    cases hfi : firstIssue testConfigSchema [] (.obj o) with
    | some i =>
      exfalso
      unfold validateConfig at hok
      simp [hfi, jsTypeofIsObject, truthy] at hok
    | none =>
      have hfi' : firstIssue testConfigSchema [] (.obj (setKey o (.str k) v)) = none := by
        rw [firstIssue_setKey_undeclared_of_objS testConfigSchema [] o k v _ rfl hk1]
        exact hfi
      have heq : validateConfig fs file (.obj (setKey o (.str k) v)) =
          validateConfig fs file (.obj o) := by
        unfold validateConfig
        simp only [hfi', hfi,
          validateProject_setKey_undeclared file o k v "config"
            (Ne.symm hti) (Ne.symm htm) (Ne.symm hus),
          getPropV_obj_setKey_ne o k v "use" (Ne.symm hus),
          jsProjects, getPropV_obj_setKey_ne o k v "projects" (Ne.symm hpr),
          getPropV_obj_setKey_ne o k v "tsconfig" (Ne.symm hts),
          jsTypeofIsObject, truthy]
      exact ⟨heq.trans hok, lookupKey_setKey_self o (.str k) v⟩
  · intro file title u k v hk hnone
    have h1 : firstIssue testOptionsSchema [] (.obj (setKey u (.str k) v)) = none := by
      rw [firstIssue_setKey_undeclared_of_objS testOptionsSchema [] u k v _ rfl hk]
      exact hnone
    constructor
    · unfold validateTestOptions
      rw [h1]
    · exact lookupKey_setKey_self u (.str k) v

end PW

namespace PW

/-- Witness for C8: unknown `customProperty` at top level and unknown
`myCustomFixture` inside `use` (the repository's own test cases). -/
theorem validateConfig_unknown_key_tolerance_witness :
    ("customProperty" ∉ objFieldNames testConfigSchema) ∧
    validateConfig (fun _ => true) "playwright.config.ts" (.obj []) = .ok () ∧
    (validateConfig (fun _ => true) "playwright.config.ts"
      (.obj (setKey [] (.str "customProperty") (.str "value"))) = .ok () ∧
     lookupKey (setKey ([] : Obj) (.str "customProperty") (.str "value"))
       (.str "customProperty") = some (.str "value")) ∧
    (validateTestOptions "playwright.config.ts"
      (.obj (setKey [] (.str "myCustomFixture") (.str "value"))) "config.use" = .ok () ∧
     lookupKey (setKey ([] : Obj) (.str "myCustomFixture") (.str "value"))
       (.str "myCustomFixture") = some (.str "value")) :=
  ⟨by decide, rfl,
    validateConfig_unknown_key_tolerance.1 (fun _ => true) "playwright.config.ts"
      [] "customProperty" (.str "value") (by decide) (by decide) rfl,
    validateConfig_unknown_key_tolerance.2 "playwright.config.ts" "config.use"
      [] "myCustomFixture" (.str "value") (by decide) rfl⟩

/-! ## Claim C7: config location resolution -/

theorem resolveFromDirectoryLoop_eq_find (fs : FileSystem) (dir : String) :
    ∀ exts : List String,
      resolveFromDirectoryLoop fs dir exts =
        (exts.find? (fun e =>
          fs.existsSync (joinPath dir ("playwright.config" ++ e)))).map
          (fun e => joinPath dir ("playwright.config" ++ e)) := by
  intro exts
  induction exts with
  | nil => rfl
  | cons e rest ih =>
    by_cases h : fs.existsSync (joinPath dir ("playwright.config" ++ e)) = true
    · simp [resolveFromDirectoryLoop, resolveConfig, h, List.find?_cons]
    · simp only [Bool.not_eq_true] at h
      simp [resolveFromDirectoryLoop, resolveConfig, h, List.find?_cons, ih]

/-- C7: (1) a target that does not exist on disk fails with an error
naming the path; (2) a directory target returns the first existing
config file trying the extensions in exactly the order
`.ts,.js,.mts,.mjs,.cts,.cjs`, and no config file when none exists;
(3) an existing non-directory target is itself the resolved config file,
with no extension filtering; (4) when a config file was found, the base
directory is its parent directory; (5) when a directory yields no config
file, the directory itself is the base directory. -/
theorem resolveConfigFile_spec :
    (∀ (fs : FileSystem) (p : String),
      fs.existsSync p = false →
      resolveConfigFile fs p = .error (p ++ " does not exist")) ∧
    (∀ (fs : FileSystem) (dir : String),
      fs.existsSync dir = true → fs.isDirectory dir = true →
      resolveConfigFile fs dir = .ok
        ((kConfigExtensions.find? (fun e =>
          fs.existsSync (joinPath dir ("playwright.config" ++ e)))).map
          (fun e => joinPath dir ("playwright.config" ++ e)))) ∧
    (∀ (fs : FileSystem) (p : String),
      fs.existsSync p = true → fs.isDirectory p = false →
      resolveConfigFile fs p = .ok (some p)) ∧
    (∀ (fs : FileSystem) (cwd q f : String),
      resolveConfigFile fs (pathResolve cwd q) = .ok (some f) →
      resolveConfigLocation fs cwd (some q) = .ok ⟨some f, dirname f⟩) ∧
    (∀ (fs : FileSystem) (cwd q : String),
      resolveConfigFile fs (pathResolve cwd q) = .ok none →
      resolveConfigLocation fs cwd (some q) = .ok ⟨none, pathResolve cwd q⟩) := by
  refine ⟨?_, ?_, ?_, ?_, ?_⟩
  · intro fs p h
    simp [resolveConfigFile, h]
  · intro fs dir he hd
    simp only [resolveConfigFile, he, hd, Bool.not_eq_true, if_true, if_false,
      Bool.true_eq_false, resolveConfigFileFromDirectory,
      resolveFromDirectoryLoop_eq_find fs dir kConfigExtensions]
    cases (kConfigExtensions.find? (fun e =>
        fs.existsSync (joinPath dir ("playwright.config" ++ e)))) <;> simp
  · intro fs p he hd
    simp [resolveConfigFile, he, hd]
  · intro fs cwd q f h
    simp [resolveConfigLocation, h]
  · intro fs cwd q h
    simp [resolveConfigLocation, h]

/-- A concrete filesystem for the C7 witness: `/proj` is a directory
holding `playwright.config.js` and `playwright.config.cjs`;
`/proj/single.ts` is a file. -/
def demoFS : FileSystem :=
  { existsSync := fun s =>
      s == "/proj" || s == "/proj/playwright.config.js" ||
      s == "/proj/playwright.config.cjs" || s == "/proj/single.ts",
    isDirectory := fun s => s == "/proj" }

/-- Witness for C7: missing path errors; the directory case picks `.js`
before `.cjs` per the fixed order; the file case returns the file; the
location carries the parent directory. -/
theorem resolveConfigFile_spec_witness :
    demoFS.existsSync "/nope" = false ∧
    resolveConfigFile demoFS "/nope" = .error ("/nope" ++ " does not exist") ∧
    resolveConfigFile demoFS "/proj" = .ok
      ((kConfigExtensions.find? (fun e =>
        demoFS.existsSync (joinPath "/proj" ("playwright.config" ++ e)))).map
        (fun e => joinPath "/proj" ("playwright.config" ++ e))) ∧
    resolveConfigFile demoFS "/proj/single.ts" = .ok (some "/proj/single.ts") ∧
    resolveConfigLocation demoFS "/" (some "/proj") =
      .ok ⟨some "/proj/playwright.config.js", dirname "/proj/playwright.config.js"⟩ :=
  ⟨rfl,
    resolveConfigFile_spec.1 demoFS "/nope" rfl,
    resolveConfigFile_spec.2.1 demoFS "/proj" rfl rfl,
    resolveConfigFile_spec.2.2.1 demoFS "/proj/single.ts" rfl rfl,
    resolveConfigFile_spec.2.2.2.1 demoFS "/" "/proj" "/proj/playwright.config.js" rfl⟩

end PW
